import Mathlib

/-
  Verification of the BreakGuard compatibility checker and code analyzer.

  This file shallowly embeds the two core modules of the repository:
  `checker/compatibility_checker.py` (the Compatibility Classifier and the
  Project Compatibility Aggregator) and `analyzer/code_analyzer.py` (the
  Syntax Extractor, the lexical fallback extractor and the Project Scanner),
  and proves the specification claims about them.

  Modelling conventions:
  - Python floats (similarity scores, thresholds) are modelled as `ℚ`.
  - Python dicts returned by `check_api` are modelled as a `Verdict` structure
    whose absent keys are `none`.
  - The external match provider (the Endee index plus the deterministic
    embedding encoder) is a black box per the spec; it is modelled as a
    function from the query context string, the library filter and the
    integer version filter to either a transport error or a ranked
    candidate list.
  - File contents are byte lists; OS-level read failures are `Except.error`.
-/

/-- Python `round()` (banker's rounding, round half to even) on an exact
    rational, used for `round(x, ndigits)`. -/
def pyRoundInt (x : ℚ) : ℤ :=
  let f := ⌊x⌋
  let r := x - f
  if r < 1/2 then f
  else if 1/2 < r then f + 1
  else if f % 2 = 0 then f else f + 1

/-- Python `round(x, nd)` for a nonnegative number of digits `nd`. -/
def pyRound (nd : ℕ) (x : ℚ) : ℚ := (pyRoundInt (x * 10 ^ nd) : ℚ) / 10 ^ nd

/-- Similarity threshold below which a match is a breaking change
    (module constant `BREAKING_THRESHOLD` in `compatibility_checker.py`). -/
def BREAKING_THRESHOLD : ℚ := 0.85

/-- Similarity threshold below which a match is a minor change
    (module constant `MINOR_THRESHOLD` in `compatibility_checker.py`). -/
def MINOR_THRESHOLD : ℚ := 0.95

/-- The `meta` dictionary of a match candidate.  Field defaults encode the
    `dict.get` defaults used by `check_api` and `_get_break_message`:
    `meta.get("function", "unknown")`, `meta.get("deprecated", False)`,
    `meta.get("migrateTo", new_api)` (kept as an option, defaulted at use
    site), `meta.get("replaces", "")`. -/
structure MatchMeta where
  function : String := "unknown"
  deprecated : Bool := false
  migrateTo : Option String := none
  replaces : String := ""
deriving DecidableEq

/-- One ranked candidate returned by the match provider.  The field default
    encodes `best_match.get("similarity", 0.0)`. -/
structure MatchCandidate where
  similarity : ℚ := 0
  meta : MatchMeta := {}
deriving DecidableEq

/-- The result dictionary of `check_api`.  Each branch of `check_api` sets a
    different subset of keys; absent keys are `none`. -/
structure Verdict where
  status : String
  api : Option String := none
  old_api : Option String := none
  new_api : Option String := none
  matched : Option String := none
  similarity : Option ℚ := none
  deprecated : Option Bool := none
  message : Option String := none
  migration : Option String := none
  confidence : Option ℚ := none
  error : Option String := none
deriving DecidableEq

/-- Migration guide text for `ReactDOM.render` → React 18. -/
def RENDER_GUIDE : String := "\n  Replace ReactDOM.render() with createRoot().render():\n\n  BEFORE (React 17):\n    import ReactDOM from \x27react-dom\x27;\n    ReactDOM.render(<App />, document.getElementById(\x27root\x27));\n\n  AFTER (React 18):\n    import \x7b createRoot \x7d from \x27react-dom/client\x27;\n    const root = createRoot(document.getElementById(\x27root\x27));\n    root.render(<App />);\n\n  Reference: https://react.dev/blog/2022/03/08/react-18-upgrade-guide\n"

/-- Migration guide text for `ReactDOM.hydrate` → React 18. -/
def HYDRATE_GUIDE : String := "\n  Replace ReactDOM.hydrate() with hydrateRoot():\n\n  BEFORE (React 17):\n    import ReactDOM from \x27react-dom\x27;\n    ReactDOM.hydrate(<App />, document.getElementById(\x27root\x27));\n\n  AFTER (React 18):\n    import \x7b hydrateRoot \x7d from \x27react-dom/client\x27;\n    hydrateRoot(document.getElementById(\x27root\x27), <App />);\n\n  Reference: https://react.dev/blog/2022/03/08/react-18-upgrade-guide\n"

/-- Migration guide text for `ReactDOM.unmountComponentAtNode` → React 18. -/
def UNMOUNT_GUIDE : String := "\n  Replace ReactDOM.unmountComponentAtNode() with root.unmount():\n\n  BEFORE (React 17):\n    import ReactDOM from \x27react-dom\x27;\n    ReactDOM.unmountComponentAtNode(container);\n\n  AFTER (React 18):\n    // Keep a reference to the root\n    const root = createRoot(container);\n    root.render(<App />);\n    // Later, to unmount:\n    root.unmount();\n\n  Reference: https://react.dev/blog/2022/03/08/react-18-upgrade-guide\n"

/-- Migration guide text for `ReactDOM.findDOMNode` → React 18. -/
def FINDDOMNODE_GUIDE : String := "\n  ReactDOM.findDOMNode() is deprecated in StrictMode in React 18.\n  Use React.createRef() or useRef() instead:\n\n  BEFORE (React 17):\n    class MyComponent extends React.Component \x7b\n      componentDidMount() \x7b\n        const node = ReactDOM.findDOMNode(this);\n      \x7d\n    \x7d\n\n  AFTER (React 18):\n    class MyComponent extends React.Component \x7b\n      constructor(props) \x7b\n        super(props);\n        this.myRef = React.createRef();\n      \x7d\n      render() \x7b\n        return <div ref=\x7bthis.myRef\x7d />;\n      \x7d\n    \x7d\n"

/-- `MIGRATION_GUIDES`: api call → version → (replacement, guide). -/
def MIGRATION_GUIDES : List (String × List (String × String × String)) :=
  [ ("ReactDOM.render", [("18", ("createRoot", RENDER_GUIDE))])
  , ("ReactDOM.hydrate", [("18", ("hydrateRoot", HYDRATE_GUIDE))])
  , ("ReactDOM.unmountComponentAtNode", [("18", ("root.unmount()", UNMOUNT_GUIDE))])
  , ("ReactDOM.findDOMNode", [("18", ("useRef / createRef", FINDDOMNODE_GUIDE))]) ]

/-- `CompatibilityChecker._get_migration`:
    `MIGRATION_GUIDES.get(api_call, {}).get(new_version, {})`; a hit returns
    the guide text (the `"guide"` key is always present in the catalog),
    anything else returns the generic no-guide message. -/
def get_migration (api_call new_version : String) : String :=
  match MIGRATION_GUIDES.find? (fun p => p.1 == api_call) with
  | none => "  No specific migration guide available. Check the official documentation."
  | some entry =>
    match entry.2.find? (fun q => q.1 == new_version) with
    | none => "  No specific migration guide available. Check the official documentation."
    | some hit => hit.2.2

/-- `CompatibilityChecker._get_break_message`. -/
def get_break_message (old_api new_api : String) (meta : MatchMeta) : String :=
  if meta.deprecated then
    old_api ++ " is DEPRECATED in the new version. Use " ++ meta.migrateTo.getD new_api ++ " instead."
  else if meta.replaces ≠ "" then
    old_api ++ " has been replaced by " ++ new_api ++ "."
  else
    old_api ++ " has significant changes in the new version (closest match: " ++ new_api ++ ")."

/-- The canned semantic description table of `CompatibilityChecker._build_context`. -/
def CONTEXTS : List (String × String) :=
  [ ("ReactDOM.render", "ReactDOM.render: Render a React element into the DOM in the supplied container. Takes element, container, optional callback. Returns void.")
  , ("ReactDOM.hydrate", "ReactDOM.hydrate: Hydrate server-rendered HTML content with React. Attach event listeners to existing markup. Takes element, container, optional callback.")
  , ("ReactDOM.unmountComponentAtNode", "ReactDOM.unmountComponentAtNode: Remove a mounted React component from the DOM and clean up event handlers and state.")
  , ("ReactDOM.findDOMNode", "ReactDOM.findDOMNode: Find the browser DOM node for a mounted React component instance.")
  , ("ReactDOM.createPortal", "ReactDOM.createPortal: Render children into a DOM node outside the parent component hierarchy.")
  , ("useState", "useState: Declare a state variable in a functional React component. Returns state value and setter function.")
  , ("useEffect", "useEffect: Perform side effects in functional components. Runs after render. Accepts cleanup function.")
  , ("useContext", "useContext: Read and subscribe to context from a React component.")
  , ("useReducer", "useReducer: Manage complex state logic with a reducer function in React.")
  , ("useCallback", "useCallback: Memoize a callback function to prevent unnecessary re-renders.")
  , ("useMemo", "useMemo: Memoize an expensive computation result between re-renders.")
  , ("useRef", "useRef: Create a mutable ref object that persists across renders.")
  , ("useLayoutEffect", "useLayoutEffect: Fire effect synchronously after DOM mutations for layout reading.")
  , ("useImperativeHandle", "useImperativeHandle: Customize ref instance value exposed to parent components.")
  , ("useDebugValue", "useDebugValue: Display label for custom hooks in React DevTools.")
  , ("React.Component", "React.Component: Base class for class-based React components with lifecycle methods and state.")
  , ("React.PureComponent", "React.PureComponent: React component with shallow prop and state comparison for performance.")
  , ("React.Fragment", "React.Fragment: Group children without adding extra DOM nodes.")
  , ("React.Suspense", "React.Suspense: Display fallback while waiting for lazy-loaded children.")
  , ("React.StrictMode", "React.StrictMode: Development tool for highlighting potential problems in React app.")
  , ("React.createElement", "React.createElement: Create a new React element of the given type with props and children.")
  , ("React.cloneElement", "React.cloneElement: Clone a React element with merged props.")
  , ("React.createRef", "React.createRef: Create a ref to attach to React elements for DOM access.")
  , ("React.forwardRef", "React.forwardRef: Forward ref to a child component.")
  , ("React.memo", "React.memo: Memoize a component to skip re-rendering when props are unchanged.")
  , ("React.lazy", "React.lazy: Define a dynamically loaded component for code splitting.")
  , ("React.createContext", "React.createContext: Create a context for passing data through component tree.")
  , ("React.Profiler", "React.Profiler: Measure rendering performance of React components.")
  , ("React.Children.map", "React.Children.map: Iterate over children elements with a function.")
  , ("React.isValidElement", "React.isValidElement: Check if an object is a valid React element.")
  , ("createRoot", "createRoot: Create a concurrent React root for rendering. New React 18 API.")
  , ("hydrateRoot", "hydrateRoot: Create a root for hydrating server-rendered content. New React 18 API.") ]

/-- `CompatibilityChecker._build_context`. -/
def build_context (api_call : String) : String :=
  match CONTEXTS.find? (fun p => p.1 == api_call) with
  | some p => p.2
  | none => api_call ++ ": React API function call"

/-- The external match provider, the composition of the deterministic
    embedding encoder with `self.index.query(vector, top_k=5,
    filter=[{library}, {version}], include_vectors=False)`.  An
    `Except.error` models the query raising. -/
abbrev Provider := String → String → Int → Except String (List MatchCandidate)

/-- `CompatibilityChecker.check_api`.  `old_version` is accepted and unused,
    as in the source.  `int(new_version)` is modelled by `String.toInt?`
    (the claims only exercise numeric version strings). -/
def check_api (query : Provider) (api_call old_version new_version library : String) : Verdict :=
  let context := build_context api_call
  let new_version_num : Int := (new_version.toInt?).getD 0
  match query context library new_version_num with
  | .error e =>
    { status := "error", api := some api_call, error := some e }
  | .ok results =>
    match results with
    | [] =>
      { status := "breaking_change"
      , old_api := some api_call
      , new_api := some "NOT FOUND"
      , similarity := some 0
      , message := some (api_call ++ " has no equivalent in " ++ library ++ " " ++ new_version)
      , migration := some (get_migration api_call new_version) }
    | best_match :: _ =>
      let similarity := best_match.similarity
      let matched_function := best_match.meta.function
      let is_deprecated := best_match.meta.deprecated
      if is_deprecated = true ∨ similarity < BREAKING_THRESHOLD then
        { status := "breaking_change"
        , old_api := some api_call
        , new_api := some matched_function
        , similarity := some (pyRound 4 similarity)
        , deprecated := some is_deprecated
        , message := some (get_break_message api_call matched_function best_match.meta)
        , migration := some (get_migration api_call new_version)
        , confidence := some (pyRound 1 (similarity * 100)) }
      else if similarity < MINOR_THRESHOLD then
        { status := "minor_change"
        , old_api := some api_call
        , new_api := some matched_function
        , similarity := some (pyRound 4 similarity)
        , message := some (api_call ++ " has minor behavioral changes in v" ++ new_version)
        , confidence := some (pyRound 1 (similarity * 100)) }
      else
        { status := "compatible"
        , api := some api_call
        , matched := some matched_function
        , similarity := some (pyRound 4 similarity)
        , confidence := some (pyRound 1 (similarity * 100)) }

/-- Lexicographic comparison of char lists by code point, the order Python
    `sorted` uses on strings. -/
def lexLe : List Char → List Char → Bool
  | [], _ => true
  | _ :: _, [] => false
  | a :: as, b :: bs =>
    if a.toNat < b.toNat then true
    else if b.toNat < a.toNat then false
    else lexLe as bs

/-- Python string order (by code point), as a binary relation. -/
def pyStrLe (a b : String) : Prop := lexLe a.data b.data = true

instance : DecidableRel pyStrLe := fun a b => by
  unfold pyStrLe
  infer_instance

/-- Python `sorted` on a list of strings. -/
def sorted_strings (l : List String) : List String := List.insertionSort pyStrLe l

/-- A Python `set` collected into a sorted list: `sorted(list(s))`. -/
def sorted_unique (found : List String) : List String := sorted_strings found.dedup

/-- The per-aggregation usage mapping: file path → list of api calls
    (`api_usage` in `check_project`). -/
abbrev Usage := List (String × List String)

/-- The deduplicated, sorted list of api calls over the whole usage mapping
    (`sorted(all_calls)` in `check_project`). -/
def all_calls (api_usage : Usage) : List String :=
  sorted_unique ((api_usage.map (fun p => p.2)).flatten)

/-- The per-aggregation verdict cache (`results_cache` in `check_project`):
    one `check_api` invocation per element of `all_calls`. -/
def results_cache (query : Provider) (api_usage : Usage) (old_version new_version library : String) :
    List (String × Verdict) :=
  (all_calls api_usage).map (fun c => (c, check_api query c old_version new_version library))

/-- Dictionary lookup in the verdict cache (`results_cache[api_call]`).
    The `"KeyError"` branch models the dict raising on a missing key; it is
    unreachable for calls drawn from the usage mapping. -/
def cache_get (cache : List (String × Verdict)) (c : String) : Verdict :=
  match cache.find? (fun p => p.1 == c) with
  | some p => p.2
  | none => { status := "KeyError" }

/-- The `summary` dictionary of `check_project`. -/
structure Summary where
  total_apis : ℕ
  breaking : ℕ
  minor : ℕ
  compatible : ℕ
  errors : ℕ
deriving DecidableEq

/-- The project report returned by `check_project`.  Detail entries are
    (file path, verdict) pairs, modelling `{"file": file_path, **result}`. -/
structure Report where
  breaking_changes : List (String × Verdict)
  minor_changes : List (String × Verdict)
  compatible : List (String × Verdict)
  errors : List (String × Verdict)
  summary : Summary
deriving DecidableEq

/-- `CompatibilityChecker.check_project`: deduplicate calls, classify each
    unique call once into the cache, fan the cached verdicts back out per
    (file, call) occurrence into the four status buckets, and compute the
    summary over the cache values. -/
def check_project (query : Provider) (api_usage : Usage) (old_version new_version library : String) :
    Report :=
  let cache := results_cache query api_usage old_version new_version library
  { breaking_changes :=
      api_usage.flatMap (fun p =>
        (p.2.filter (fun c => (cache_get cache c).status == "breaking_change")).map
          (fun c => (p.1, cache_get cache c)))
  , minor_changes :=
      api_usage.flatMap (fun p =>
        (p.2.filter (fun c => (cache_get cache c).status == "minor_change")).map
          (fun c => (p.1, cache_get cache c)))
  , errors :=
      api_usage.flatMap (fun p =>
        (p.2.filter (fun c => (cache_get cache c).status == "error")).map
          (fun c => (p.1, cache_get cache c)))
  , compatible :=
      api_usage.flatMap (fun p =>
        (p.2.filter (fun c =>
          !((cache_get cache c).status == "breaking_change")
          && !((cache_get cache c).status == "minor_change")
          && !((cache_get cache c).status == "error"))).map
          (fun c => (p.1, cache_get cache c)))
  , summary :=
    { total_apis := (all_calls api_usage).length
    , breaking := (cache.filter (fun p => p.2.status == "breaking_change")).length
    , minor := (cache.filter (fun p => p.2.status == "minor_change")).length
    , compatible := (cache.filter (fun p => p.2.status == "compatible")).length
    , errors := (cache.filter (fun p => p.2.status == "error")).length } }

/-- The bucket of the report that the `if/elif/else` chain of
    `check_project` appends an entry of the given status to. -/
def report_bucket (r : Report) (st : String) : List (String × Verdict) :=
  if st == "breaking_change" then r.breaking_changes
  else if st == "minor_change" then r.minor_changes
  else if st == "error" then r.errors
  else r.compatible

/-- The spec's decision table for a top-ranked candidate, transcribed from
    the specification text with its stated default thresholds 0.85/0.95:
    deprecated or score below the breaking threshold → Breaking, else below
    the minor threshold → Minor, else Compatible. -/
def spec_decision_table (deprecated : Bool) (similarityScore : ℚ) : String :=
  if deprecated = true ∨ similarityScore < 0.85 then "breaking_change"
  else if similarityScore < 0.95 then "minor_change"
  else "compatible"

/-- The catalog lookup the spec describes for the no-candidate case: the
    migration guide for this symbol and target version, when one exists. -/
def catalog_guide (api_call new_version : String) : Option String :=
  (MIGRATION_GUIDES.find? (fun p => p.1 == api_call)).bind
    (fun entry => (entry.2.find? (fun q => q.1 == new_version)).map (fun hit => hit.2.2))

/-- The classifier as the spec describes it when a configured breaking /
    minor threshold pair is in effect (the spec: thresholds are
    configuration, not hard-coded constants).  Identical to `check_api`
    except that the two cutoffs are parameters. -/
def check_api_with_thresholds (breaking_threshold minor_threshold : ℚ) (query : Provider)
    (api_call old_version new_version library : String) : Verdict :=
  let context := build_context api_call
  let new_version_num : Int := (new_version.toInt?).getD 0
  match query context library new_version_num with
  | .error e =>
    { status := "error", api := some api_call, error := some e }
  | .ok results =>
    match results with
    | [] =>
      { status := "breaking_change"
      , old_api := some api_call
      , new_api := some "NOT FOUND"
      , similarity := some 0
      , message := some (api_call ++ " has no equivalent in " ++ library ++ " " ++ new_version)
      , migration := some (get_migration api_call new_version) }
    | best_match :: _ =>
      let similarity := best_match.similarity
      let matched_function := best_match.meta.function
      let is_deprecated := best_match.meta.deprecated
      if is_deprecated = true ∨ similarity < breaking_threshold then
        { status := "breaking_change"
        , old_api := some api_call
        , new_api := some matched_function
        , similarity := some (pyRound 4 similarity)
        , deprecated := some is_deprecated
        , message := some (get_break_message api_call matched_function best_match.meta)
        , migration := some (get_migration api_call new_version)
        , confidence := some (pyRound 1 (similarity * 100)) }
      else if similarity < minor_threshold then
        { status := "minor_change"
        , old_api := some api_call
        , new_api := some matched_function
        , similarity := some (pyRound 4 similarity)
        , message := some (api_call ++ " has minor behavioral changes in v" ++ new_version)
        , confidence := some (pyRound 1 (similarity * 100)) }
      else
        { status := "compatible"
        , api := some api_call
        , matched := some matched_function
        , similarity := some (pyRound 4 similarity)
        , confidence := some (pyRound 1 (similarity * 100)) }

/-- A provider returning a fixed candidate list for every query. -/
def stub_provider (cands : List MatchCandidate) : Provider := fun _ _ _ => .ok cands

/-- A provider whose query always raises with the given detail. -/
def failing_provider (e : String) : Provider := fun _ _ _ => .error e

/-- Every verdict produced by `check_api` has one of the four statuses. -/
theorem check_api_status_cases (query : Provider) (a ov nv lib : String) :
    (check_api query a ov nv lib).status = "breaking_change"
    ∨ (check_api query a ov nv lib).status = "minor_change"
    ∨ (check_api query a ov nv lib).status = "compatible"
    ∨ (check_api query a ov nv lib).status = "error" := by
  unfold check_api
  rcases hq : query (build_context a) lib (nv.toInt?.getD 0) with e | results <;>
    simp only [hq]
  · simp
  · rcases results with _ | ⟨best, rest⟩
    · simp
    · dsimp only
      split
      · simp
      · split
        · simp
        · simp

/-- Every branch of `check_api` records the classified api call, either in
    `old_api` (breaking / minor) or in `api` (compatible / error). -/
theorem check_api_symbol (query : Provider) (a ov nv lib : String) :
    ((check_api query a ov nv lib).old_api).or (check_api query a ov nv lib).api = some a := by
  unfold check_api
  rcases hq : query (build_context a) lib (nv.toInt?.getD 0) with e | results <;>
    simp only [hq]
  · simp
  · rcases results with _ | ⟨best, rest⟩
    · simp
    · dsimp only
      split
      · simp
      · split
        · simp
        · simp

theorem mem_all_calls {api_usage : Usage} {fp : String} {calls : List String} {c : String}
    (h1 : (fp, calls) ∈ api_usage) (h2 : c ∈ calls) : c ∈ all_calls api_usage := by
  unfold all_calls sorted_unique sorted_strings
  refine ((List.perm_insertionSort _ _).mem_iff).2 (List.mem_dedup.2 ?_)
  rw [List.mem_flatten]
  exact ⟨calls, List.mem_map_of_mem (fun p => p.2) h1, h2⟩

theorem find_in_cache (W : String → Verdict) (l : List String) (c : String) (h : c ∈ l) :
    (l.map (fun x => (x, W x))).find? (fun p => p.1 == c) = some (c, W c) := by
  induction l with
  | nil => cases h
  | cons a rest ih =>
    by_cases hac : a = c
    · subst hac
      simp [List.find?_cons]
    · have hc : c ∈ rest := by
        rcases List.mem_cons.1 h with h' | h'
        · exact absurd h'.symm hac
        · exact h'
      simp only [List.map_cons, List.find?_cons]
      have : ((a, W a).1 == c) = false := by
        simp [hac]
      rw [this]
      exact ih hc

theorem cache_get_results_cache {query : Provider} {api_usage : Usage} {ov nv lib : String}
    {c : String} (h : c ∈ all_calls api_usage) :
    cache_get (results_cache query api_usage ov nv lib) c = check_api query c ov nv lib := by
  unfold cache_get results_cache
  rw [find_in_cache (fun x => check_api query x ov nv lib) _ c h]

/-- Every (file, call) occurrence in the usage mapping contributes the
    cached verdict to the bucket that matches its status. -/
theorem mem_report_bucket {query : Provider} {api_usage : Usage} {ov nv lib : String}
    {fp : String} {calls : List String} {c : String}
    (h1 : (fp, calls) ∈ api_usage) (h2 : c ∈ calls) :
    (fp, check_api query c ov nv lib)
      ∈ report_bucket (check_project query api_usage ov nv lib)
          ((check_api query c ov nv lib).status) := by
  have hcg : cache_get (results_cache query api_usage ov nv lib) c = check_api query c ov nv lib :=
    cache_get_results_cache (mem_all_calls h1 h2)
  unfold report_bucket check_project
  by_cases hb : (check_api query c ov nv lib).status = "breaking_change"
  · rw [if_pos (by simp [hb])]
    refine List.mem_flatMap.2 ⟨(fp, calls), h1, ?_⟩
    refine List.mem_map.2 ⟨c, List.mem_filter.2 ⟨h2, by simp [hcg, hb]⟩, by simp [hcg]⟩
  · rw [if_neg (by simp [hb])]
    by_cases hm : (check_api query c ov nv lib).status = "minor_change"
    · rw [if_pos (by simp [hm])]
      refine List.mem_flatMap.2 ⟨(fp, calls), h1, ?_⟩
      refine List.mem_map.2 ⟨c, List.mem_filter.2 ⟨h2, by simp [hcg, hm]⟩, by simp [hcg]⟩
    · rw [if_neg (by simp [hm])]
      by_cases he : (check_api query c ov nv lib).status = "error"
      · rw [if_pos (by simp [he])]
        refine List.mem_flatMap.2 ⟨(fp, calls), h1, ?_⟩
        refine List.mem_map.2 ⟨c, List.mem_filter.2 ⟨h2, by simp [hcg, he]⟩, by simp [hcg]⟩
      · rw [if_neg (by simp [he])]
        refine List.mem_flatMap.2 ⟨(fp, calls), h1, ?_⟩
        refine List.mem_map.2 ⟨c, List.mem_filter.2 ⟨h2, by simp [hcg, hb, hm, he]⟩, by simp [hcg]⟩

theorem get_migration_eq_catalog (a v : String) :
    get_migration a v
      = (catalog_guide a v).getD
          "  No specific migration guide available. Check the official documentation." := by
  unfold get_migration catalog_guide
  rcases h1 : MIGRATION_GUIDES.find? (fun p => p.1 == a) with _ | entry <;>
    simp only [h1]
  · simp
  · rcases h2 : entry.2.find? (fun q => q.1 == v) with _ | hit <;> simp only [h2]
    · simp [h2]
    · simp [h2]

/-- C1: with at least one candidate, the verdict status is exactly the
    spec's ordered decision table applied to the top-ranked candidate's
    deprecated flag and similarity score; in particular deprecated=true with
    score 0.99 is Breaking, 0.90 is Minor, 0.60 is Breaking and 0.99 is
    Compatible. -/
theorem c1_decision_table :
    (∀ (query : Provider) (best : MatchCandidate) (rest : List MatchCandidate)
        (api_call old_version new_version library : String),
      query (build_context api_call) library ((new_version.toInt?).getD 0) = .ok (best :: rest) →
        (check_api query api_call old_version new_version library).status
          = spec_decision_table best.meta.deprecated best.similarity)
    ∧ (check_api (stub_provider [{ similarity := 0.99, meta := { deprecated := true } }])
        "a" "17" "18" "react").status = "breaking_change"
    ∧ (check_api (stub_provider [{ similarity := 0.9 }]) "a" "17" "18" "react").status
        = "minor_change"
    ∧ (check_api (stub_provider [{ similarity := 0.6 }]) "a" "17" "18" "react").status
        = "breaking_change"
    ∧ (check_api (stub_provider [{ similarity := 0.99 }]) "a" "17" "18" "react").status
        = "compatible" := by
  refine ⟨?_, ?_, ?_, ?_, ?_⟩
  · intro query best rest a ov nv lib h
    unfold check_api spec_decision_table BREAKING_THRESHOLD MINOR_THRESHOLD
    simp only [h]
    by_cases hd : best.meta.deprecated = true ∨ best.similarity < 0.85
    · simp [hd]
    · by_cases hm : best.similarity < 0.95
      · simp [hd, hm]
      · simp [hd, hm]
  · norm_num [check_api, stub_provider, BREAKING_THRESHOLD, MINOR_THRESHOLD]
  · norm_num [check_api, stub_provider, BREAKING_THRESHOLD, MINOR_THRESHOLD]
  · norm_num [check_api, stub_provider, BREAKING_THRESHOLD, MINOR_THRESHOLD]
  · norm_num [check_api, stub_provider, BREAKING_THRESHOLD, MINOR_THRESHOLD]

/-- C1 witness: the decision-table theorem applied at a concrete provider
    returning one candidate with score 0.9 and deprecated=false. -/
theorem c1_decision_table_witness :
    (check_api (stub_provider [{ similarity := 0.9 }]) "a" "17" "18" "react").status
      = spec_decision_table false 0.9 :=
  c1_decision_table.1 (stub_provider [{ similarity := 0.9 }]) { similarity := 0.9 } [] "a" "17"
    "18" "react" rfl

/-- C2: with zero candidates, the verdict is Breaking with
    newSymbol "NOT FOUND" and similarity 0, and carries the cataloged
    migration guide for (symbol, target version) when one exists, else the
    generic no-guide message; concretely, `ReactDOM.render`/18 has a
    cataloged guide and `useState`/18 falls back to the generic message. -/
theorem c2_no_candidates :
    (∀ (query : Provider) (api_call old_version new_version library : String),
      query (build_context api_call) library ((new_version.toInt?).getD 0) = .ok [] →
        (check_api query api_call old_version new_version library).status = "breaking_change"
        ∧ (check_api query api_call old_version new_version library).new_api = some "NOT FOUND"
        ∧ (check_api query api_call old_version new_version library).similarity = some 0
        ∧ (check_api query api_call old_version new_version library).migration
            = some ((catalog_guide api_call new_version).getD
                "  No specific migration guide available. Check the official documentation."))
    ∧ get_migration "ReactDOM.render" "18" = RENDER_GUIDE
    ∧ get_migration "useState" "18"
        = "  No specific migration guide available. Check the official documentation."
    ∧ catalog_guide "ReactDOM.render" "18" = some RENDER_GUIDE
    ∧ catalog_guide "useState" "18" = none := by
  constructor
  · intro query a ov nv lib h
    unfold check_api
    simp [h, get_migration_eq_catalog]
  · exact ⟨rfl, rfl, rfl, rfl⟩

/-- C2 witness: the no-candidate theorem applied at a concrete provider
    returning an empty candidate list. -/
theorem c2_no_candidates_witness :
    (check_api (stub_provider []) "ReactDOM.render" "17" "18" "react").status = "breaking_change"
    ∧ (check_api (stub_provider []) "ReactDOM.render" "17" "18" "react").new_api
        = some "NOT FOUND"
    ∧ (check_api (stub_provider []) "ReactDOM.render" "17" "18" "react").similarity = some 0
    ∧ (check_api (stub_provider []) "ReactDOM.render" "17" "18" "react").migration
        = some ((catalog_guide "ReactDOM.render" "18").getD
            "  No specific migration guide available. Check the official documentation.") :=
  c2_no_candidates.1 (stub_provider []) "ReactDOM.render" "17" "18" "react" rfl

/-- C3: a raising provider query yields a terminal Error verdict carrying
    the failure detail (the embedded call consumes a single provider
    response, so no retry can occur within it), and in project aggregation
    the failure stays scoped to the affected symbol: every occurrence of
    every other symbol still lands in the bucket matching its own verdict,
    while the failing symbol's occurrences land in the errors bucket. -/
theorem c3_provider_failure :
    ∀ (query : Provider) (api_usage : Usage) (old_version new_version library s e : String),
      query (build_context s) library ((new_version.toInt?).getD 0) = .error e →
        ((check_api query s old_version new_version library).status = "error"
          ∧ (check_api query s old_version new_version library).error = some e)
        ∧ (∀ fp calls c, (fp, calls) ∈ api_usage → c ∈ calls → c ≠ s →
            (fp, check_api query c old_version new_version library)
              ∈ report_bucket (check_project query api_usage old_version new_version library)
                  ((check_api query c old_version new_version library).status))
        ∧ (∀ fp calls, (fp, calls) ∈ api_usage → s ∈ calls →
            (fp, check_api query s old_version new_version library)
              ∈ (check_project query api_usage old_version new_version library).errors) := by
  intro query api_usage ov nv lib s e h
  have herr : (check_api query s ov nv lib).status = "error" ∧
      (check_api query s ov nv lib).error = some e := by
    unfold check_api
    simp [h]
  refine ⟨herr, ?_, ?_⟩
  · intro fp calls c h1 h2 _
    exact mem_report_bucket h1 h2
  · intro fp calls h1 h2
    have hmem := @mem_report_bucket query api_usage ov nv lib fp calls s h1 h2
    rw [herr.1] at hmem
    simpa [report_bucket] using hmem

/-- C3 witness: a provider that always raises, a two-symbol usage mapping;
    the failing symbol gets an Error verdict and the other symbol's entry is
    still produced in its bucket. -/
theorem c3_provider_failure_witness :
    ((check_api (failing_provider "boom") "ReactDOM.render" "17" "18" "react").status = "error"
      ∧ (check_api (failing_provider "boom") "ReactDOM.render" "17" "18" "react").error
          = some "boom")
    ∧ ("App.js", check_api (failing_provider "boom") "useState" "17" "18" "react")
        ∈ report_bucket
            (check_project (failing_provider "boom") [("App.js", ["useState", "ReactDOM.render"])]
              "17" "18" "react")
            ((check_api (failing_provider "boom") "useState" "17" "18" "react").status) := by
  have h := c3_provider_failure (failing_provider "boom")
    [("App.js", ["useState", "ReactDOM.render"])] "17" "18" "react" "ReactDOM.render" "boom" rfl
  exact ⟨h.1, h.2.1 "App.js" ["useState", "ReactDOM.render"] "useState" (by simp) (by simp)
    (by decide)⟩

/-- C7: the similarity cutoffs `check_api` applies are the hard-coded
    module constants: it coincides with the spec's threshold-parameterised
    classifier only at 0.85/0.95, and the CLI `--threshold` value is parsed
    but never passed to the checker, so a configured threshold of 0.5 with
    a candidate at similarity 0.70 would give Minor per the claim while the
    code gives Breaking. -/
theorem c7_threshold_hardcoded :
    (∀ (query : Provider) (api_call old_version new_version library : String),
      check_api query api_call old_version new_version library
        = check_api_with_thresholds 0.85 0.95 query api_call old_version new_version library)
    ∧ (check_api (stub_provider [{ similarity := 0.7 }]) "a" "17" "18" "react").status
        = "breaking_change"
    ∧ (check_api_with_thresholds 0.5 0.95 (stub_provider [{ similarity := 0.7 }])
        "a" "17" "18" "react").status = "minor_change" := by
  refine ⟨?_, ?_, ?_⟩
  · intro query a ov nv lib
    unfold check_api check_api_with_thresholds BREAKING_THRESHOLD MINOR_THRESHOLD
    rfl
  · norm_num [check_api, stub_provider, BREAKING_THRESHOLD, MINOR_THRESHOLD]
  · norm_num [check_api_with_thresholds, stub_provider]

/-- The concatenation of the four detail buckets of a report. -/
def detail_entries (r : Report) : List (String × Verdict) :=
  r.breaking_changes ++ r.minor_changes ++ r.errors ++ r.compatible

/-- The detail entries whose verdict classifies the given symbol (the
    symbol of an entry is its `old_api` field, else its `api` field). -/
def entries_for (r : Report) (s : String) : List (String × Verdict) :=
  (detail_entries r).filter (fun en => ((en.2.old_api).or en.2.api) == some s)

theorem flatMap_congr {α β : Type} {l : List α} {f g : α → List β}
    (h : ∀ a ∈ l, f a = g a) : l.flatMap f = l.flatMap g := by
  induction l with
  | nil => rfl
  | cons a rest ih =>
    simp only [List.flatMap_cons]
    rw [h a (List.mem_cons_self a rest), ih (fun x hx => h x (List.mem_cons_of_mem a hx))]

/-- In every occurrence bucket, the cached verdict equals a direct
    `check_api` invocation on the occurrence's call. -/
theorem bucket_direct (query : Provider) (api_usage : Usage) (ov nv lib : String)
    (F : Verdict → Bool) :
    api_usage.flatMap (fun p =>
        (p.2.filter (fun c => F (cache_get (results_cache query api_usage ov nv lib) c))).map
          (fun c => (p.1, cache_get (results_cache query api_usage ov nv lib) c)))
      = api_usage.flatMap (fun p =>
          (p.2.filter (fun c => F (check_api query c ov nv lib))).map
            (fun c => (p.1, check_api query c ov nv lib))) := by
  apply flatMap_congr
  intro p hp
  have hc : ∀ c ∈ p.2,
      cache_get (results_cache query api_usage ov nv lib) c = check_api query c ov nv lib :=
    fun c hcm => cache_get_results_cache (mem_all_calls hp hcm)
  rw [List.filter_congr (fun c hcm => by rw [hc c hcm])]
  apply List.map_congr_left
  intro c hcm
  rw [hc c (List.mem_filter.1 hcm).1]

theorem length_filter_map_pair (l : List String) (fp : String) (W : String → Verdict)
    (hsym : ∀ c ∈ l, ((W c).old_api).or (W c).api = some c) (st : String → Bool) (s : String) :
    (((l.filter st).map (fun c => (fp, W c))).filter
        (fun en => ((en.2.old_api).or en.2.api) == some s)).length
      = (l.filter (fun c => st c && c == s)).length := by
  induction l with
  | nil => rfl
  | cons c rest ih =>
    have hsymc := hsym c (List.mem_cons_self c rest)
    have ihr := ih (fun x hx => hsym x (List.mem_cons_of_mem c hx))
    by_cases hst : st c
    · by_cases hcs : c = s
      · subst hcs
        simp [List.filter_cons, hst, hsymc, ihr]
      · simp [List.filter_cons, hst, hsymc, hcs, ihr]
    · simp [List.filter_cons, hst, ihr]

theorem length_filter_status_partition {α : Type} (l : List α) (f : α → String)
    (r : α → Bool) :
    (l.filter (fun x => f x == "breaking_change" && r x)).length
      + (l.filter (fun x => f x == "minor_change" && r x)).length
      + (l.filter (fun x => f x == "error" && r x)).length
      + (l.filter (fun x =>
          (!(f x == "breaking_change") && !(f x == "minor_change") && !(f x == "error"))
            && r x)).length
      = (l.filter r).length := by
  induction l with
  | nil => rfl
  | cons a rest ih =>
    by_cases h1 : f a = "breaking_change" <;> by_cases h2 : f a = "minor_change" <;>
      by_cases h3 : f a = "error" <;> by_cases hr : r a = true <;>
      simp_all [List.filter_cons] <;> omega

theorem length_filter_beq_of_nodup {l : List String} {s : String} (hn : l.Nodup) :
    (l.filter (fun c => c == s)).length = if s ∈ l then 1 else 0 := by
  by_cases h : s ∈ l
  · rw [if_pos h, ← List.countP_eq_length_filter]
    exact List.count_eq_one_of_mem hn h
  · rw [if_neg h, ← List.countP_eq_length_filter]
    exact List.count_eq_zero_of_not_mem h

theorem all_calls_nodup (api_usage : Usage) : (all_calls api_usage).Nodup := by
  unfold all_calls sorted_unique sorted_strings
  exact ((List.perm_insertionSort _ _).nodup_iff).2 (List.nodup_dedup _)

theorem length_filter_map_fst (l : List String) (W : String → Verdict) (s : String) :
    ((l.map (fun c => (c, W c))).filter (fun p => p.1 == s)).length
      = (l.filter (fun c => c == s)).length := by
  induction l with
  | nil => rfl
  | cons c rest ih =>
    by_cases hcs : c = s
    · subst hcs
      simp [List.filter_cons, ih]
    · simp [List.filter_cons, hcs, ih]

theorem bucket_direct_breaking (query : Provider) (api_usage : Usage) (ov nv lib : String) :
    api_usage.flatMap (fun p =>
        (p.2.filter (fun c =>
          (cache_get (results_cache query api_usage ov nv lib) c).status == "breaking_change")).map
          (fun c => (p.1, cache_get (results_cache query api_usage ov nv lib) c)))
      = api_usage.flatMap (fun p =>
          (p.2.filter (fun c => (check_api query c ov nv lib).status == "breaking_change")).map
            (fun c => (p.1, check_api query c ov nv lib))) :=
  bucket_direct query api_usage ov nv lib (fun v => v.status == "breaking_change")

theorem bucket_direct_minor (query : Provider) (api_usage : Usage) (ov nv lib : String) :
    api_usage.flatMap (fun p =>
        (p.2.filter (fun c =>
          (cache_get (results_cache query api_usage ov nv lib) c).status == "minor_change")).map
          (fun c => (p.1, cache_get (results_cache query api_usage ov nv lib) c)))
      = api_usage.flatMap (fun p =>
          (p.2.filter (fun c => (check_api query c ov nv lib).status == "minor_change")).map
            (fun c => (p.1, check_api query c ov nv lib))) :=
  bucket_direct query api_usage ov nv lib (fun v => v.status == "minor_change")

theorem bucket_direct_error (query : Provider) (api_usage : Usage) (ov nv lib : String) :
    api_usage.flatMap (fun p =>
        (p.2.filter (fun c =>
          (cache_get (results_cache query api_usage ov nv lib) c).status == "error")).map
          (fun c => (p.1, cache_get (results_cache query api_usage ov nv lib) c)))
      = api_usage.flatMap (fun p =>
          (p.2.filter (fun c => (check_api query c ov nv lib).status == "error")).map
            (fun c => (p.1, check_api query c ov nv lib))) :=
  bucket_direct query api_usage ov nv lib (fun v => v.status == "error")

theorem bucket_direct_compatible (query : Provider) (api_usage : Usage) (ov nv lib : String) :
    api_usage.flatMap (fun p =>
        (p.2.filter (fun c =>
          !((cache_get (results_cache query api_usage ov nv lib) c).status == "breaking_change")
          && !((cache_get (results_cache query api_usage ov nv lib) c).status == "minor_change")
          && !((cache_get (results_cache query api_usage ov nv lib) c).status == "error"))).map
          (fun c => (p.1, cache_get (results_cache query api_usage ov nv lib) c)))
      = api_usage.flatMap (fun p =>
          (p.2.filter (fun c =>
            !((check_api query c ov nv lib).status == "breaking_change")
            && !((check_api query c ov nv lib).status == "minor_change")
            && !((check_api query c ov nv lib).status == "error"))).map
            (fun c => (p.1, check_api query c ov nv lib))) :=
  bucket_direct query api_usage ov nv lib
    (fun v => !(v.status == "breaking_change") && !(v.status == "minor_change")
      && !(v.status == "error"))

/-- The detail list of a project report, with every cached verdict unfolded
    to the direct classifier invocation it caches. -/
theorem detail_entries_direct (query : Provider) (api_usage : Usage) (ov nv lib : String) :
    detail_entries (check_project query api_usage ov nv lib)
      = api_usage.flatMap (fun p =>
          (p.2.filter (fun c => (check_api query c ov nv lib).status == "breaking_change")).map
            (fun c => (p.1, check_api query c ov nv lib)))
        ++ api_usage.flatMap (fun p =>
            (p.2.filter (fun c => (check_api query c ov nv lib).status == "minor_change")).map
              (fun c => (p.1, check_api query c ov nv lib)))
        ++ api_usage.flatMap (fun p =>
            (p.2.filter (fun c => (check_api query c ov nv lib).status == "error")).map
              (fun c => (p.1, check_api query c ov nv lib)))
        ++ api_usage.flatMap (fun p =>
            (p.2.filter (fun c =>
              !((check_api query c ov nv lib).status == "breaking_change")
              && !((check_api query c ov nv lib).status == "minor_change")
              && !((check_api query c ov nv lib).status == "error"))).map
              (fun c => (p.1, check_api query c ov nv lib))) := by
  unfold detail_entries check_project
  dsimp only
  rw [bucket_direct_breaking, bucket_direct_minor, bucket_direct_error, bucket_direct_compatible]

/-- The number of detail entries carrying a given symbol equals the number
    of usage files listing that symbol (one fan-out entry per listing file,
    given per-file call lists without duplicates). -/
theorem fanout_count (query : Provider) (ov nv lib s : String) (api_usage : Usage)
    (hnodup : ∀ p ∈ api_usage, (p.2 : List String).Nodup) :
    ((api_usage.flatMap (fun p =>
          (p.2.filter (fun c => (check_api query c ov nv lib).status == "breaking_change")).map
            (fun c => (p.1, check_api query c ov nv lib)))
        ++ api_usage.flatMap (fun p =>
            (p.2.filter (fun c => (check_api query c ov nv lib).status == "minor_change")).map
              (fun c => (p.1, check_api query c ov nv lib)))
        ++ api_usage.flatMap (fun p =>
            (p.2.filter (fun c => (check_api query c ov nv lib).status == "error")).map
              (fun c => (p.1, check_api query c ov nv lib)))
        ++ api_usage.flatMap (fun p =>
            (p.2.filter (fun c =>
              !((check_api query c ov nv lib).status == "breaking_change")
              && !((check_api query c ov nv lib).status == "minor_change")
              && !((check_api query c ov nv lib).status == "error"))).map
              (fun c => (p.1, check_api query c ov nv lib)))).filter
        (fun en => ((en.2.old_api).or en.2.api) == some s)).length
      = (api_usage.filter (fun p => decide (s ∈ p.2))).length := by
  induction api_usage with
  | nil => rfl
  | cons p rest ih =>
    have hnp : (p.2 : List String).Nodup := hnodup p (List.mem_cons_self p rest)
    have ih' := ih (fun x hx => hnodup x (List.mem_cons_of_mem p hx))
    simp only [List.flatMap_cons, List.filter_append, List.length_append] at ih' ⊢
    have e1 : (((p.2.filter (fun c =>
          (check_api query c ov nv lib).status == "breaking_change")).map
          (fun c => (p.1, check_api query c ov nv lib))).filter
          (fun en => ((en.2.old_api).or en.2.api) == some s)).length
        = (p.2.filter (fun c =>
            ((check_api query c ov nv lib).status == "breaking_change") && c == s)).length :=
      length_filter_map_pair p.2 p.1 _ (fun c _ => check_api_symbol query c ov nv lib) _ s
    have e2 : (((p.2.filter (fun c =>
          (check_api query c ov nv lib).status == "minor_change")).map
          (fun c => (p.1, check_api query c ov nv lib))).filter
          (fun en => ((en.2.old_api).or en.2.api) == some s)).length
        = (p.2.filter (fun c =>
            ((check_api query c ov nv lib).status == "minor_change") && c == s)).length :=
      length_filter_map_pair p.2 p.1 _ (fun c _ => check_api_symbol query c ov nv lib) _ s
    have e3 : (((p.2.filter (fun c =>
          (check_api query c ov nv lib).status == "error")).map
          (fun c => (p.1, check_api query c ov nv lib))).filter
          (fun en => ((en.2.old_api).or en.2.api) == some s)).length
        = (p.2.filter (fun c =>
            ((check_api query c ov nv lib).status == "error") && c == s)).length :=
      length_filter_map_pair p.2 p.1 _ (fun c _ => check_api_symbol query c ov nv lib) _ s
    have e4 : (((p.2.filter (fun c =>
          !((check_api query c ov nv lib).status == "breaking_change")
          && !((check_api query c ov nv lib).status == "minor_change")
          && !((check_api query c ov nv lib).status == "error"))).map
          (fun c => (p.1, check_api query c ov nv lib))).filter
          (fun en => ((en.2.old_api).or en.2.api) == some s)).length
        = (p.2.filter (fun c =>
            (!((check_api query c ov nv lib).status == "breaking_change")
            && !((check_api query c ov nv lib).status == "minor_change")
            && !((check_api query c ov nv lib).status == "error")) && c == s)).length :=
      length_filter_map_pair p.2 p.1 _ (fun c _ => check_api_symbol query c ov nv lib) _ s
    have epart : (p.2.filter (fun c =>
          ((check_api query c ov nv lib).status == "breaking_change") && c == s)).length
        + (p.2.filter (fun c =>
            ((check_api query c ov nv lib).status == "minor_change") && c == s)).length
        + (p.2.filter (fun c =>
            ((check_api query c ov nv lib).status == "error") && c == s)).length
        + (p.2.filter (fun c =>
            (!((check_api query c ov nv lib).status == "breaking_change")
            && !((check_api query c ov nv lib).status == "minor_change")
            && !((check_api query c ov nv lib).status == "error")) && c == s)).length
        = (p.2.filter (fun c => c == s)).length :=
      length_filter_status_partition p.2 (fun c => (check_api query c ov nv lib).status)
        (fun c => c == s)
    have ecount := @length_filter_beq_of_nodup p.2 s hnp
    by_cases hsp : s ∈ p.2
    · simp only [List.filter_cons]
      rw [if_pos (by simp [hsp])]
      rw [if_pos hsp] at ecount
      simp only [List.length_cons]
      omega
    · simp only [List.filter_cons]
      rw [if_neg (by simp [hsp])]
      rw [if_neg hsp] at ecount
      omega

theorem length_filter_four_exhaustive {α : Type} (l : List α) (f : α → String)
    (h : ∀ x ∈ l, f x = "breaking_change" ∨ f x = "minor_change" ∨ f x = "compatible"
      ∨ f x = "error") :
    (l.filter (fun x => f x == "breaking_change")).length
      + (l.filter (fun x => f x == "minor_change")).length
      + (l.filter (fun x => f x == "compatible")).length
      + (l.filter (fun x => f x == "error")).length
      = l.length := by
  induction l with
  | nil => rfl
  | cons a rest ih =>
    have ih' := ih (fun x hx => h x (List.mem_cons_of_mem a hx))
    rcases h a (List.mem_cons_self a rest) with ha | ha | ha | ha <;>
      simp only [List.filter_cons, ha, List.length_cons] <;> simp <;> omega

/-- C4: project aggregation classifies each unique symbol exactly once (one
    cache entry per symbol present in the usage mapping); a symbol listed by
    N files produces exactly N detail entries; and every detail entry for
    that symbol carries the single cached verdict, so all its fan-out
    entries agree on every verdict field and differ only in the file path. -/
theorem c4_dedup_and_fanout :
    ∀ (query : Provider) (api_usage : Usage) (old_version new_version library s : String),
      s ∈ (api_usage.map (fun p => p.2)).flatten →
        ((results_cache query api_usage old_version new_version library).filter
            (fun p => p.1 == s)).length = 1
        ∧ ((∀ p ∈ api_usage, (p.2 : List String).Nodup) →
            (entries_for (check_project query api_usage old_version new_version library) s).length
              = (api_usage.filter (fun p => decide (s ∈ p.2))).length)
        ∧ (∀ en ∈ entries_for (check_project query api_usage old_version new_version library) s,
            en.2 = check_api query s old_version new_version library) := by
  intro query api_usage ov nv lib s hs
  have hmemall : s ∈ all_calls api_usage := by
    unfold all_calls sorted_unique sorted_strings
    exact ((List.perm_insertionSort _ _).mem_iff).2 (List.mem_dedup.2 hs)
  refine ⟨?_, ?_, ?_⟩
  · unfold results_cache
    rw [length_filter_map_fst, length_filter_beq_of_nodup (all_calls_nodup api_usage),
      if_pos hmemall]
  · intro hnodup
    unfold entries_for
    rw [detail_entries_direct]
    exact fanout_count query ov nv lib s api_usage hnodup
  · intro en hen
    unfold entries_for at hen
    rw [detail_entries_direct] at hen
    have hpred := (List.mem_filter.1 hen).2
    have hmem := (List.mem_filter.1 hen).1
    have hcase : ∀ (st : String → Bool),
        en ∈ api_usage.flatMap (fun p =>
          (p.2.filter st).map (fun c => (p.1, check_api query c ov nv lib))) →
        en.2 = check_api query s ov nv lib := by
      intro st hmem'
      rcases List.mem_flatMap.1 hmem' with ⟨p, _, hin⟩
      rcases List.mem_map.1 hin with ⟨c, _, rfl⟩
      have hsym := check_api_symbol query c ov nv lib
      have hcs : c = s := by
        have : ((check_api query c ov nv lib).old_api.or (check_api query c ov nv lib).api)
            == some s := hpred
        rw [hsym] at this
        simpa using this
      rw [← hcs]
    rcases List.mem_append.1 hmem with h3 | hC
    · rcases List.mem_append.1 h3 with h2 | hE
      · rcases List.mem_append.1 h2 with hB | hM
        · exact hcase _ hB
        · exact hcase _ hM
      · exact hcase _ hE
    · exact hcase _ hC

/-- C4 witness: a symbol present in two files with a concrete provider is
    classified once and fans out to two identical-verdict entries. -/
theorem c4_dedup_and_fanout_witness :
    ((results_cache (failing_provider "down") [("a.js", ["useState"]), ("b.js", ["useState"])]
        "17" "18" "react").filter (fun p => p.1 == "useState")).length = 1
    ∧ (entries_for (check_project (failing_provider "down")
        [("a.js", ["useState"]), ("b.js", ["useState"])] "17" "18" "react") "useState").length
        = ([("a.js", ["useState"]), ("b.js", ["useState"])].filter
            (fun p => decide ("useState" ∈ p.2))).length
    ∧ ([("a.js", ["useState"]), ("b.js", ["useState"])].filter
        (fun p => decide ("useState" ∈ p.2))).length = 2 := by
  have h := c4_dedup_and_fanout (failing_provider "down")
    [("a.js", ["useState"]), ("b.js", ["useState"])] "17" "18" "react" "useState" (by simp)
  exact ⟨h.1, h.2.1 (by decide), by decide⟩

/-- C5: the project summary is computed over the unique-symbol verdict
    cache (one entry per unique symbol), and its four status counts always
    sum to the number of unique symbols. -/
theorem c5_summary_invariant :
    ∀ (query : Provider) (api_usage : Usage) (old_version new_version library : String),
      ((check_project query api_usage old_version new_version library).summary.breaking
          + (check_project query api_usage old_version new_version library).summary.minor
          + (check_project query api_usage old_version new_version library).summary.compatible
          + (check_project query api_usage old_version new_version library).summary.errors
        = (check_project query api_usage old_version new_version library).summary.total_apis)
      ∧ (check_project query api_usage old_version new_version library).summary.total_apis
          = (all_calls api_usage).length
      ∧ (check_project query api_usage old_version new_version library).summary.breaking
          = ((results_cache query api_usage old_version new_version library).filter
              (fun p => p.2.status == "breaking_change")).length
      ∧ (check_project query api_usage old_version new_version library).summary.minor
          = ((results_cache query api_usage old_version new_version library).filter
              (fun p => p.2.status == "minor_change")).length
      ∧ (check_project query api_usage old_version new_version library).summary.compatible
          = ((results_cache query api_usage old_version new_version library).filter
              (fun p => p.2.status == "compatible")).length
      ∧ (check_project query api_usage old_version new_version library).summary.errors
          = ((results_cache query api_usage old_version new_version library).filter
              (fun p => p.2.status == "error")).length := by
  intro query api_usage ov nv lib
  refine ⟨?_, rfl, rfl, rfl, rfl, rfl⟩
  show ((results_cache query api_usage ov nv lib).filter
        (fun p => p.2.status == "breaking_change")).length
      + ((results_cache query api_usage ov nv lib).filter
          (fun p => p.2.status == "minor_change")).length
      + ((results_cache query api_usage ov nv lib).filter
          (fun p => p.2.status == "compatible")).length
      + ((results_cache query api_usage ov nv lib).filter
          (fun p => p.2.status == "error")).length
      = (all_calls api_usage).length
  have hstat : ∀ x ∈ results_cache query api_usage ov nv lib,
      x.2.status = "breaking_change" ∨ x.2.status = "minor_change"
      ∨ x.2.status = "compatible" ∨ x.2.status = "error" := by
    intro x hx
    rcases List.mem_map.1 hx with ⟨c, _, rfl⟩
    exact check_api_status_cases query c ov nv lib
  have := length_filter_four_exhaustive (results_cache query api_usage ov nv lib)
    (fun x => x.2.status) hstat
  rw [this]
  unfold results_cache
  exact List.length_map _ _

/-- Word character test for the regex `\b` and `\w` atoms, restricted to
    ASCII.  Python `\w` is Unicode; the two agree on every ASCII character,
    every catalog symbol is ASCII, and the boundary hypotheses of the C8
    theorems restrict the character before a match to ASCII, so no statement
    proved here asserts a match that the Unicode `\b` would reject. -/
def isWordCh (c : Char) : Bool := c.isAlphanum || c == '_'

/-- Whitespace test for the regex `\s` atom (ASCII whitespace: space, tab,
    newline, carriage return, vertical tab, form feed). -/
def isSpaceCh (c : Char) : Bool :=
  c == ' ' || c == '\t' || c == '\n' || c == '\r' || c == Char.ofNat 11 || c == Char.ofNat 12

/-- A UTF-8 continuation byte. -/
def utf8Cont (b : Nat) : Bool := 0x80 ≤ b && b ≤ 0xBF

/-- UTF-8 decoding with `errors="ignore"`, as used by both extractors when
    opening a file: a valid sequence decodes to its scalar value, an invalid
    or truncated sequence is dropped (its maximal valid prefix is skipped)
    and decoding continues; decoding never fails. -/
def decode_ignore : List Nat → List Char
  | [] => []
  | b :: rest =>
    if b < 0x80 then Char.ofNat b :: decode_ignore rest
    else if 0xC2 ≤ b && b ≤ 0xDF then
      match rest with
      | [] => []
      | b2 :: r2 =>
        if utf8Cont b2 then
          Char.ofNat ((b - 0xC0) * 64 + (b2 - 0x80)) :: decode_ignore r2
        else decode_ignore (b2 :: r2)
    else if 0xE0 ≤ b && b ≤ 0xEF then
      match rest with
      | [] => []
      | b2 :: r2 =>
        if (b == 0xE0 && (0xA0 ≤ b2 && b2 ≤ 0xBF))
            || (b == 0xED && (0x80 ≤ b2 && b2 ≤ 0x9F))
            || (!(b == 0xE0) && !(b == 0xED) && utf8Cont b2) then
          match r2 with
          | [] => []
          | b3 :: r3 =>
            if utf8Cont b3 then
              Char.ofNat ((b - 0xE0) * 4096 + (b2 - 0x80) * 64 + (b3 - 0x80))
                :: decode_ignore r3
            else decode_ignore (b3 :: r3)
        else decode_ignore (b2 :: r2)
    else if 0xF0 ≤ b && b ≤ 0xF4 then
      match rest with
      | [] => []
      | b2 :: r2 =>
        if (b == 0xF0 && (0x90 ≤ b2 && b2 ≤ 0xBF))
            || (b == 0xF4 && (0x80 ≤ b2 && b2 ≤ 0x8F))
            || (!(b == 0xF0) && !(b == 0xF4) && utf8Cont b2) then
          match r2 with
          | [] => []
          | b3 :: r3 =>
            if utf8Cont b3 then
              match r3 with
              | [] => []
              | b4 :: r4 =>
                if utf8Cont b4 then
                  Char.ofNat ((b - 0xF0) * 262144 + (b2 - 0x80) * 4096
                      + (b3 - 0x80) * 64 + (b4 - 0x80)) :: decode_ignore r4
                else decode_ignore (b4 :: r4)
            else decode_ignore (b3 :: r3)
        else decode_ignore (b2 :: r2)
    else decode_ignore rest

/-- `REACT_HOOKS`, in the order of the lexical extractor's alternation. -/
def REACT_HOOKS : List String :=
  [ "useState", "useEffect", "useContext", "useReducer", "useCallback", "useMemo", "useRef"
  , "useImperativeHandle", "useLayoutEffect", "useDebugValue", "useId", "useTransition"
  , "useDeferredValue", "useInsertionEffect", "useSyncExternalStore" ]

/-- `REACT_MEMBER_APIS`: owner → known method set. -/
def REACT_MEMBER_APIS : List (String × List String) :=
  [ ("ReactDOM",
      ["render", "hydrate", "unmountComponentAtNode", "findDOMNode", "createPortal", "flushSync"])
  , ("React",
      [ "createElement", "cloneElement", "createRef", "forwardRef", "memo", "lazy"
      , "createContext", "isValidElement", "startTransition" ]) ]

/-- `REACT_COMPONENT_APIS`. -/
def REACT_COMPONENT_APIS : List String :=
  [ "React.Component", "React.PureComponent", "React.Fragment", "React.Suspense"
  , "React.StrictMode", "React.Profiler" ]

/-- `REACT_IMPORTS`. -/
def REACT_IMPORTS : List String := ["createRoot", "hydrateRoot"]

/- The untyped esprima syntax tree handed to the walker (`ast.toDict()`):
   JSON-like nodes.  `JFields` are the key/value pairs of a dict node,
   `JElems` the items of a list node. -/
mutual
inductive JNode where
  | jnull : JNode
  | jbool : Bool → JNode
  | jnum : Int → JNode
  | jstr : String → JNode
  | jobj : JFields → JNode
  | jarr : JElems → JNode
inductive JFields where
  | fnil : JFields
  | fcons : String → JNode → JFields → JFields
inductive JElems where
  | enil : JElems
  | econs : JNode → JElems → JElems
end

/-- `dict.get(key, {})` on a node's fields. -/
def JFields.get : JFields → String → JNode
  | .fnil, _ => .jobj .fnil
  | .fcons k v rest, key => if k == key then v else rest.get key

/-- `dict.get(key, "")` for a string-valued field: a missing key or a
    non-string value yields `""`, which fails every name comparison the
    walker performs, as a missing key does in the source. -/
def JFields.getStr (fields : JFields) (key : String) : String :=
  match fields.get key with
  | .jstr s => s
  | _ => ""

/-- `node.get(key, default).get("name", "")` for a dict-valued field. -/
def JNode.getStr (n : JNode) (key : String) : String :=
  match n with
  | .jobj fields => fields.getStr key
  | _ => ""

/-- The symbols the walker's `ImportDeclaration` branch collects from the
    `specifiers` list: per specifier dict, the effective bound name is the
    `imported` name if nonempty (Python `or`), else the `local` name; it is
    recorded when it is a known import or a known hook. -/
def importHits : JElems → List String
  | .enil => []
  | .econs spec rest =>
    (match spec with
     | .jobj sf =>
       let imported_name := (sf.get "imported").getStr "name"
       let local_name := (sf.get "local").getStr "name"
       let name := if imported_name == "" then local_name else imported_name
       (if REACT_IMPORTS.contains name then [name] else [])
         ++ (if REACT_HOOKS.contains name then [name] else [])
     | _ => []) ++ importHits rest

/-- The symbols the walker records at one dict node, before recursing: the
    five `node_type` branches of the `walk` closure in
    `extract_api_calls_ast`.  (The `source` field of an import declaration
    is read but unused in the source; it is omitted here.) -/
def nodeHits (fields : JFields) : List String :=
  let node_type := fields.getStr "type"
  (if node_type == "MemberExpression" then
    let obj_name := (fields.get "object").getStr "name"
    let prop_name := (fields.get "property").getStr "name"
    (match REACT_MEMBER_APIS.find? (fun p => p.1 == obj_name) with
     | some owner => if owner.2.contains prop_name then [obj_name ++ "." ++ prop_name] else []
     | none => [])
      ++ (if obj_name == "React" && prop_name == "Children" then ["React.Children.map"] else [])
   else [])
  ++ (if node_type == "CallExpression" then
      let callee_name := (fields.get "callee").getStr "name"
      (if REACT_HOOKS.contains callee_name then [callee_name] else [])
        ++ (if REACT_IMPORTS.contains callee_name then [callee_name] else [])
     else [])
  ++ (if node_type == "ClassDeclaration" then
      match fields.get "superClass" with
      | .jobj sf =>
        let oname := (sf.get "object").getStr "name"
        let pname := (sf.get "property").getStr "name"
        if oname == "React" && (pname == "Component" || pname == "PureComponent") then
          ["React." ++ pname]
        else []
      | _ => []
     else [])
  ++ (if node_type == "JSXMemberExpression" then
      let oname := (fields.get "object").getStr "name"
      let pname := (fields.get "property").getStr "name"
      if oname == "React" then
        if REACT_COMPONENT_APIS.contains ("React." ++ pname) then ["React." ++ pname] else []
      else []
     else [])
  ++ (if node_type == "ImportDeclaration" then
      match fields.get "specifiers" with
      | .jarr specs => importHits specs
      | _ => []
     else [])

/- The recursive tree walk of `extract_api_calls_ast`: record the current
   dict node's hits, then recurse into every dict/list-valued field and
   every list item (scalar values contribute nothing). -/
mutual
def walkNode : JNode → List String
  | .jobj fields => nodeHits fields ++ walkFields fields
  | .jarr elems => walkElems elems
  | _ => []
def walkFields : JFields → List String
  | .fnil => []
  | .fcons _ v rest => walkNode v ++ walkFields rest
def walkElems : JElems → List String
  | .enil => []
  | .econs v rest => walkNode v ++ walkElems rest
end

/-- The optional structural parser (`esprima`): `parseScript` and
    `parseModule` in tolerant JSX mode, each either producing a tree or
    raising (`none`).  Its behaviour on concrete sources is external to the
    repository and is supplied per instance. -/
structure Esprima where
  parseScript : String → Option JNode
  parseModule : String → Option JNode

/-- Match a literal character sequence at the head of the input, returning
    the remaining input on success. -/
def matchLit : List Char → List Char → Option (List Char)
  | [], l => some l
  | _ :: _, [] => none
  | p :: ps, c :: cs => if p == c then matchLit ps cs else none

/-- Greedily consume `\s*`, returning the count consumed and the rest. -/
def skipSpaces : List Char → Nat × List Char
  | [] => (0, [])
  | c :: cs =>
    if isSpaceCh c then
      let r := skipSpaces cs
      (r.1 + 1, r.2)
    else (0, c :: cs)

/-- A linear pattern shape shared by five of the lexical extractor's rules:
    an optional `\b`, a literal stem, a group alternation, and optionally
    `\s*` followed by one final character from a set.  The group
    alternatives are tried in the order written in the source regex. -/
structure LinPat where
  stem : List Char
  boundary : Bool
  hasTail : Bool
  finals : List Char
  alts : List (List Char)

/-- `\b` before a word character holds at the string start or after a
    non-word character. -/
def boundary_ok : Option Char → Bool
  | none => true
  | some c => !isWordCh c

/-- Try one alternation branch at the head of the input; on success return
    the total number of characters the branch (with its tail) consumes. -/
def tryAlt (hasTail : Bool) (finals : List Char) (alt : List Char) (l : List Char) :
    Option Nat :=
  match matchLit alt l with
  | none => none
  | some r =>
    if hasTail then
      match skipSpaces r with
      | (nsp, c :: _) => if finals.contains c then some (alt.length + nsp + 1) else none
      | (_, []) => none
    else some alt.length

/-- Try the alternation branches in order (regex alternation semantics). -/
def tryAlts (hasTail : Bool) (finals : List Char) :
    List (List Char) → List Char → Option (List Char × Nat)
  | [], _ => none
  | a :: rest, l =>
    match tryAlt hasTail finals a l with
    | some n => some (a, n)
    | none => tryAlts hasTail finals rest l

/-- Try a linear pattern at the current position, returning the matched
    group and the total match length. -/
def tryPat (p : LinPat) (prev : Option Char) (l : List Char) : Option (List Char × Nat) :=
  if p.boundary && !boundary_ok prev then none
  else
    match matchLit p.stem l with
    | none => none
    | some r => (tryAlts p.hasTail p.finals p.alts r).map (fun an => (an.1, p.stem.length + an.2))

/-- `re.finditer` driver: scan left to right; a match contributes its group
    and scanning resumes after the matched span (matches do not overlap); on
    failure advance one character.  `prev` is the character before the
    current position, for `\b`.  The fuel starts at the input length, which
    every recursive call preserves as an upper bound. -/
def scanGo (t : Option Char → List Char → Option (List Char × Nat)) :
    Nat → Option Char → List Char → List (List Char)
  | 0, _, _ => []
  | _ + 1, _, [] => []
  | fuel + 1, prev, c :: rest =>
    match t prev (c :: rest) with
    | some (g, n) => g :: scanGo t fuel ((c :: rest).get? (n - 1)) (rest.drop (n - 1))
    | none => scanGo t fuel (some c) rest

/-- All groups of the non-overlapping matches of a matcher over the input. -/
def finditer (t : Option Char → List Char → Option (List Char × Nat)) (l : List Char) :
    List (List Char) :=
  scanGo t l.length none l

/-- Rule `ReactDOM\.(render|hydrate|unmountComponentAtNode|findDOMNode|createPortal|flushSync)\s*\(`. -/
def patReactDOM : LinPat :=
  { stem := "ReactDOM.".data
  , boundary := false
  , hasTail := true
  , finals := ['(']
  , alts := ["render", "hydrate", "unmountComponentAtNode", "findDOMNode", "createPortal",
      "flushSync"].map String.data }

/-- Rule `React\.(createElement|cloneElement|createRef|forwardRef|memo|lazy|createContext|isValidElement|startTransition)\s*[\(\<]`. -/
def patReact : LinPat :=
  { stem := "React.".data
  , boundary := false
  , hasTail := true
  , finals := ['(', '<']
  , alts := ["createElement", "cloneElement", "createRef", "forwardRef", "memo", "lazy",
      "createContext", "isValidElement", "startTransition"].map String.data }

/-- Rule `\b(useState|...|useSyncExternalStore)\s*\(` over the hook names. -/
def patHooks : LinPat :=
  { stem := []
  , boundary := true
  , hasTail := true
  , finals := ['(']
  , alts := REACT_HOOKS.map String.data }

/-- Rule `\b(createRoot|hydrateRoot)\s*\(`. -/
def patNewAPI : LinPat :=
  { stem := []
  , boundary := true
  , hasTail := true
  , finals := ['(']
  , alts := REACT_IMPORTS.map String.data }

/-- Rule `React\.(Fragment|StrictMode|Suspense|Profiler)`. -/
def patComponents : LinPat :=
  { stem := "React.".data
  , boundary := false
  , hasTail := false
  , finals := []
  , alts := ["Fragment", "StrictMode", "Suspense", "Profiler"].map String.data }

/-- Rule `extends\s+React\.(Component|PureComponent)`: the literal
    `extends`, at least one space, `React.`, then the alternation in source
    order. -/
def tryExtends (_prev : Option Char) (l : List Char) : Option (List Char × Nat) :=
  match matchLit "extends".data l with
  | none => none
  | some r =>
    match skipSpaces r with
    | (0, _) => none
    | (nsp, r2) =>
      match matchLit "React.".data r2 with
      | none => none
      | some r3 =>
        match matchLit "Component".data r3 with
        | some _ => some ("Component".data, 7 + nsp + 6 + 9)
        | none =>
          match matchLit "PureComponent".data r3 with
          | some _ => some ("PureComponent".data, 7 + nsp + 6 + 13)
          | none => none

/-- One position of `re.search(r"React\.Children\.\w+")`: the literal
    followed by at least one word character. -/
def childrenHere (l : List Char) : Bool :=
  match matchLit "React.Children.".data l with
  | some (c :: _) => isWordCh c
  | _ => false

/-- `re.search(r"React\.Children\.\w+", code)` as an existence check. -/
def searchChildren : List Char → Bool
  | [] => false
  | c :: rest => childrenHere (c :: rest) || searchChildren rest

/-- `extract_api_calls_regex` on decoded file text: the seven regex rules,
    collected into a set and returned sorted. -/
def regexExtract (code : List Char) : List String :=
  let found :=
    (finditer (tryPat patReactDOM) code).map (fun g => "ReactDOM." ++ String.mk g)
    ++ (finditer (tryPat patReact) code).map (fun g => "React." ++ String.mk g)
    ++ (finditer (tryPat patHooks) code).map (fun g => String.mk g)
    ++ (finditer (tryPat patNewAPI) code).map (fun g => String.mk g)
    ++ (finditer tryExtends code).map (fun g => "React." ++ String.mk g)
    ++ (finditer (tryPat patComponents) code).map (fun g => "React." ++ String.mk g)
    ++ (if searchChildren code then ["React.Children.map"] else [])
  sorted_unique found

/-- `extract_api_calls_regex`: open the file with decoding errors ignored
    (an `Except.error` content is an OS-level read failure propagating to
    the caller), then run the regex rules over the decoded text. -/
def extract_api_calls_regex (content : Except String (List Nat)) : Except String (List String) :=
  content.map (fun bytes => regexExtract (decode_ignore bytes))

/-- `extract_api_calls_ast`: with no structural parser available, fall back
    to the lexical extractor; otherwise read the file (decoding errors
    ignored), try `parseScript` then `parseModule`, walk the tree and return
    the sorted symbol set; if both parses raise, fall back to the lexical
    extractor. -/
def extract_api_calls_ast (esprima : Option Esprima) (content : Except String (List Nat)) :
    Except String (List String) :=
  match esprima with
  | none => extract_api_calls_regex content
  | some es =>
    match content with
    | .error e => .error e
    | .ok bytes =>
      let code := String.mk (decode_ignore bytes)
      match es.parseScript code with
      | some ast => .ok (sorted_unique (walkNode ast))
      | none =>
        match es.parseModule code with
        | some ast => .ok (sorted_unique (walkNode ast))
        | none => extract_api_calls_regex content

/-- The suffix of a character list after its last occurrence of `sep` (the
    whole list when `sep` does not occur). -/
def afterLastChar (sep : Char) : List Char → List Char
  | [] => []
  | c :: rest =>
    if rest.contains sep || c == sep then afterLastChar sep rest else c :: rest

/-- `ext.lower()` restricted to ASCII (every allowlisted extension is
    ASCII, where this coincides with Python `str.lower`). -/
def lower_ascii (s : String) : String :=
  String.mk (s.data.map (fun c =>
    if 65 <= c.toNat && c.toNat <= 90 then Char.ofNat (c.toNat + 32) else c))

/-- `os.path.splitext(file)[1]`: the extension of the basename, from its
    last dot, empty when the basename has no dot or only leading dots. -/
def ext_of (path : String) : String :=
  let base := afterLastChar '/' path.data
  if base.contains '.' then
    let suffix := afterLastChar '.' base
    let stem := base.take (base.length - suffix.length - 1)
    if stem.any (fun c => !(c == '.')) then String.mk ('.' :: suffix) else ""
  else ""

/-- The source-extension allowlist of `scan_project`. -/
def SUPPORTED_EXTENSIONS : List String := [".js", ".jsx", ".tsx", ".ts", ".mjs"]

/-- The excluded directory names of `scan_project` (the directory walk
    itself is outside the core per the spec; files below these directories
    never reach the per-file loop modelled here). -/
def SKIP_DIRS : List String := ["node_modules", ".git", "dist", "build", "__pycache__", ".next"]

/-- The body of `scan_project`'s per-file loop over the walked files, in
    walk order: an eligible file is extracted inside `try`; a nonempty call
    list enters the results mapping, an empty one is dropped, and a raising
    extraction is appended to the local `skipped` list.  Returns the pair
    (results, skipped). -/
def scan_project_impl (es : Option Esprima) :
    List (String × Except String (List Nat)) →
      (List (String × List String)) × (List (String × String))
  | [] => ([], [])
  | (fp, content) :: rest =>
    if SUPPORTED_EXTENSIONS.contains (lower_ascii (ext_of fp)) then
      match extract_api_calls_ast es content with
      | .ok calls =>
        if calls.isEmpty then scan_project_impl es rest
        else ((fp, calls) :: (scan_project_impl es rest).1, (scan_project_impl es rest).2)
      | .error e =>
        ((scan_project_impl es rest).1, (fp, e) :: (scan_project_impl es rest).2)
    else scan_project_impl es rest

/-- `scan_project`: the function returns only the results mapping; the
    `skipped` list built alongside it is a local variable that the source
    never returns. -/
def scan_project (es : Option Esprima) (files : List (String × Except String (List Nat))) :
    List (String × List String) :=
  (scan_project_impl es files).1

theorem lexLe_total : ∀ a b : List Char, lexLe a b = true ∨ lexLe b a = true := by
  intro a
  induction a with
  | nil => intro b; left; rfl
  | cons x xs ih =>
    intro b
    cases b with
    | nil => right; rfl
    | cons y ys =>
      by_cases h1 : x.toNat < y.toNat
      · left
        simp [lexLe, h1]
      · by_cases h2 : y.toNat < x.toNat
        · right
          simp [lexLe, h2]
        · rcases ih ys with h | h
          · left
            simp [lexLe, h1, h2, h]
          · right
            simp [lexLe, h1, h2, h]

theorem lexLe_trans : ∀ a b c : List Char,
    lexLe a b = true → lexLe b c = true → lexLe a c = true := by
  intro a
  induction a with
  | nil => intro b c _ _; rfl
  | cons x xs ih =>
    intro b c hab hbc
    cases b with
    | nil => simp [lexLe] at hab
    | cons y ys =>
      cases c with
      | nil => simp [lexLe] at hbc
      | cons z zs =>
        simp only [lexLe] at hab hbc ⊢
        by_cases hxy : x.toNat < y.toNat
        · by_cases hyz : y.toNat < z.toNat
          · have hxz : x.toNat < z.toNat := Nat.lt_trans hxy hyz
            simp [hxz]
          · by_cases hzy : z.toNat < y.toNat
            · rw [if_neg hyz, if_pos hzy] at hbc
              cases hbc
            · have hxz : x.toNat < z.toNat := by omega
              simp [hxz]
        · by_cases hyx : y.toNat < x.toNat
          · rw [if_neg hxy, if_pos hyx] at hab
            cases hab
          · rw [if_neg hxy, if_neg hyx] at hab
            by_cases hyz : y.toNat < z.toNat
            · have hxz : x.toNat < z.toNat := by omega
              simp [hxz]
            · by_cases hzy : z.toNat < y.toNat
              · rw [if_neg hyz, if_pos hzy] at hbc
                cases hbc
              · rw [if_neg hyz, if_neg hzy] at hbc
                have hxz : ¬ x.toNat < z.toNat := by omega
                have hzx : ¬ z.toNat < x.toNat := by omega
                rw [if_neg hxz, if_neg hzx]
                exact ih ys zs hab hbc

instance : IsTotal String pyStrLe :=
  ⟨fun a b => lexLe_total a.data b.data⟩

instance : IsTrans String pyStrLe :=
  ⟨fun a b c => lexLe_trans a.data b.data c.data⟩

theorem sorted_unique_sorted (l : List String) : (sorted_unique l).Sorted pyStrLe :=
  List.sorted_insertionSort pyStrLe l.dedup

theorem sorted_unique_nodup (l : List String) : (sorted_unique l).Nodup :=
  ((List.perm_insertionSort pyStrLe l.dedup).nodup_iff).2 (List.nodup_dedup l)

/-- Every successful extraction returns a sorted symbol set. -/
theorem extract_ast_ok_shape (es : Option Esprima) (content : Except String (List Nat))
    (calls : List String) (h : extract_api_calls_ast es content = .ok calls) :
    ∃ found, calls = sorted_unique found := by
  unfold extract_api_calls_ast at h
  rcases es with _ | es
  · unfold extract_api_calls_regex at h
    rcases content with e | bytes
    · simp [Except.map] at h
    · simp only [Except.map] at h
      exact ⟨_, (Except.ok.inj h).symm⟩
  · rcases content with e | bytes
    · simp at h
    · dsimp only at h
      rcases hps : es.parseScript (String.mk (decode_ignore bytes)) with _ | ast
      · rw [hps] at h
        rcases hpm : es.parseModule (String.mk (decode_ignore bytes)) with _ | ast
        · rw [hpm] at h
          unfold extract_api_calls_regex at h
          simp only [Except.map] at h
          exact ⟨_, (Except.ok.inj h).symm⟩
        · rw [hpm] at h
          exact ⟨_, (Except.ok.inj h).symm⟩
      · rw [hps] at h
        exact ⟨_, (Except.ok.inj h).symm⟩

/-- Extraction fails only by propagating an OS-level read failure of the
    file content; decoding never fails (errors are ignored) and a parse
    failure falls back to the lexical extractor instead of raising. -/
theorem extract_ast_error (es : Option Esprima) (content : Except String (List Nat))
    (e : String) (h : extract_api_calls_ast es content = .error e) :
    content = .error e := by
  unfold extract_api_calls_ast at h
  rcases es with _ | es
  · unfold extract_api_calls_regex at h
    rcases content with e' | bytes
    · simp only [Except.map] at h
      rw [Except.error.inj h]
    · simp [Except.map] at h
  · rcases content with e' | bytes
    · dsimp only at h
      rw [Except.error.inj h]
    · dsimp only at h
      rcases hps : es.parseScript (String.mk (decode_ignore bytes)) with _ | ast
      · rw [hps] at h
        rcases hpm : es.parseModule (String.mk (decode_ignore bytes)) with _ | ast
        · rw [hpm] at h
          unfold extract_api_calls_regex at h
          simp [Except.map] at h
        · rw [hpm] at h
          cases h
      · rw [hps] at h
        cases h

/-- Every entry of the results mapping comes from a walked file whose
    extraction succeeded with a nonempty call list. -/
theorem scan_impl_mem_results {es : Option Esprima}
    {files : List (String × Except String (List Nat))} {fp : String} {calls : List String}
    (h : (fp, calls) ∈ (scan_project_impl es files).1) :
    calls ≠ [] ∧ ∃ content, (fp, content) ∈ files
      ∧ extract_api_calls_ast es content = .ok calls := by
  induction files with
  | nil => cases h
  | cons file rest ih =>
    rcases file with ⟨fp', content'⟩
    unfold scan_project_impl at h
    by_cases hext : SUPPORTED_EXTENSIONS.contains (lower_ascii (ext_of fp'))
    · rw [if_pos hext] at h
      rcases hx : extract_api_calls_ast es content' with e | calls'
      · rw [hx] at h
        dsimp only at h
        rcases ih h with ⟨hne, content, hmem, hok⟩
        exact ⟨hne, content, List.mem_cons_of_mem _ hmem, hok⟩
      · rw [hx] at h
        dsimp only at h
        by_cases hempty : calls'.isEmpty
        · rw [if_pos hempty] at h
          rcases ih h with ⟨hne, content, hmem, hok⟩
          exact ⟨hne, content, List.mem_cons_of_mem _ hmem, hok⟩
        · rw [if_neg hempty] at h
          rcases List.mem_cons.1 h with heq | hmem
          · have hfp : fp = fp' := congrArg Prod.fst heq
            have hcalls : calls = calls' := congrArg Prod.snd heq
            subst hfp
            subst hcalls
            refine ⟨?_, content', List.mem_cons_self _ _, hx⟩
            intro hnil
            subst hnil
            exact hempty rfl
          · rcases ih hmem with ⟨hne, content, hmem', hok⟩
            exact ⟨hne, content, List.mem_cons_of_mem _ hmem', hok⟩
    · rw [if_neg hext] at h
      rcases ih h with ⟨hne, content, hmem, hok⟩
      exact ⟨hne, content, List.mem_cons_of_mem _ hmem, hok⟩

/-- Every entry of the local skipped list comes from a walked file whose
    extraction raised with that message. -/
theorem scan_impl_mem_skipped {es : Option Esprima}
    {files : List (String × Except String (List Nat))} {fp e : String}
    (h : (fp, e) ∈ (scan_project_impl es files).2) :
    ∃ content, (fp, content) ∈ files ∧ extract_api_calls_ast es content = .error e := by
  induction files with
  | nil => cases h
  | cons file rest ih =>
    rcases file with ⟨fp', content'⟩
    unfold scan_project_impl at h
    by_cases hext : SUPPORTED_EXTENSIONS.contains (lower_ascii (ext_of fp'))
    · rw [if_pos hext] at h
      rcases hx : extract_api_calls_ast es content' with e' | calls'
      · rw [hx] at h
        dsimp only at h
        rcases List.mem_cons.1 h with heq | hmem
        · have hfp : fp = fp' := congrArg Prod.fst heq
          have he : e = e' := congrArg Prod.snd heq
          subst hfp
          subst he
          exact ⟨content', List.mem_cons_self _ _, hx⟩
        · rcases ih hmem with ⟨content, hmem', herr⟩
          exact ⟨content, List.mem_cons_of_mem _ hmem', herr⟩
      · rw [hx] at h
        dsimp only at h
        by_cases hempty : calls'.isEmpty
        · rw [if_pos hempty] at h
          rcases ih h with ⟨content, hmem', herr⟩
          exact ⟨content, List.mem_cons_of_mem _ hmem', herr⟩
        · rw [if_neg hempty] at h
          rcases ih h with ⟨content, hmem', herr⟩
          exact ⟨content, List.mem_cons_of_mem _ hmem', herr⟩
    · rw [if_neg hext] at h
      rcases ih h with ⟨content, hmem', herr⟩
      exact ⟨content, List.mem_cons_of_mem _ hmem', herr⟩

/-- ASCII text as file bytes. -/
def str_bytes (s : String) : List Nat := s.data.map (fun c => c.toNat)

/-- C9: every file in the scan result mapping maps to a nonempty,
    lexically sorted, duplicate-free call list coming from a successful
    extraction of a walked file (extraction collects a set and returns it
    sorted), and skip entries arise only from raising extractions, so a
    file whose extraction returns the empty list is omitted from the
    mapping rather than reported as an error. -/
theorem c9_scan_result_invariants :
    (∀ (es : Option Esprima) (files : List (String × Except String (List Nat)))
        (fp : String) (calls : List String),
      (fp, calls) ∈ scan_project es files →
        calls ≠ [] ∧ calls.Sorted pyStrLe ∧ calls.Nodup
        ∧ ∃ content, (fp, content) ∈ files
            ∧ extract_api_calls_ast es content = .ok calls)
    ∧ (∀ (es : Option Esprima) (files : List (String × Except String (List Nat)))
        (fp e : String),
      (fp, e) ∈ (scan_project_impl es files).2 →
        ∃ content, (fp, content) ∈ files ∧ extract_api_calls_ast es content = .error e) := by
  constructor
  · intro es files fp calls h
    rcases scan_impl_mem_results h with ⟨hne, content, hmem, hok⟩
    rcases extract_ast_ok_shape es content calls hok with ⟨found, hshape⟩
    subst hshape
    exact ⟨hne, sorted_unique_sorted found, sorted_unique_nodup found, content, hmem, hok⟩
  · intro es files fp e h
    exact scan_impl_mem_skipped h

/-- C9 witness: a two-file scan; the file with hook calls enters the
    mapping with a sorted duplicate-free list, the file with no matches is
    omitted. -/
theorem c9_scan_result_invariants_witness :
    (["useState"] : List String) ≠ []
    ∧ (["useState"] : List String).Sorted pyStrLe
    ∧ (["useState"] : List String).Nodup
    ∧ ∃ content,
        ("a.js", content)
          ∈ [("a.js", Except.ok (str_bytes "useState(0); useState(1)")),
             ("b.js", Except.ok (str_bytes "var x = 1;"))]
        ∧ extract_api_calls_ast none content = .ok ["useState"] := by
  have h := c9_scan_result_invariants.1 none
    [("a.js", Except.ok (str_bytes "useState(0); useState(1)")),
     ("b.js", Except.ok (str_bytes "var x = 1;"))]
    "a.js" ["useState"] (by decide)
  exact h

/-- C10: both extraction paths read file content with decoding errors
    ignored, so extraction of readable content is total — invalid UTF-8
    never raises and never produces a skip entry; a skip entry always
    traces back to an OS-level read failure of the file itself; and a file
    with invalid UTF-8 bytes still yields its symbols from the lossily
    decoded text. -/
theorem c10_lossy_decoding :
    (∀ (es : Option Esprima) (bytes : List Nat),
      ∃ calls, extract_api_calls_ast es (.ok bytes) = .ok calls)
    ∧ (∀ (es : Option Esprima) (files : List (String × Except String (List Nat)))
        (fp e : String),
      (fp, e) ∈ (scan_project_impl es files).2 → (fp, Except.error e) ∈ files)
    ∧ extract_api_calls_ast none (.ok ([0xFF, 0xC3] ++ str_bytes "useState(x)"))
        = .ok ["useState"] := by
  refine ⟨?_, ?_, ?_⟩
  · intro es bytes
    rcases es with _ | es
    · exact ⟨_, rfl⟩
    · unfold extract_api_calls_ast
      rcases hps : es.parseScript (String.mk (decode_ignore bytes)) with _ | ast
      · simp only [hps]
        rcases hpm : es.parseModule (String.mk (decode_ignore bytes)) with _ | ast
        · simp only [hpm]
          exact ⟨_, rfl⟩
        · simp only [hpm]
          exact ⟨_, rfl⟩
      · simp only [hps]
        exact ⟨_, rfl⟩
  · intro es files fp e h
    rcases scan_impl_mem_skipped h with ⟨content, hmem, herr⟩
    rw [← extract_ast_error es content e herr]
    exact hmem
  · rfl

/-- C10 witness: extraction of a lone invalid byte succeeds, and a skip
    entry of a concrete scan traces back to the read-failed file. -/
theorem c10_lossy_decoding_witness :
    (∃ calls, extract_api_calls_ast none (.ok [0xFF]) = .ok calls)
    ∧ ("x.js", Except.error "gone")
        ∈ ([("x.js", Except.error "gone")] : List (String × Except String (List Nat))) :=
  ⟨c10_lossy_decoding.1 none [0xFF],
    c10_lossy_decoding.2.1 none [("x.js", Except.error "gone")] "x.js" "gone" (by decide)⟩

/-- C6: evaluation of `scan_project` on a project with one read-failed
    eligible file and one healthy file: the walk continues past the
    failure and the healthy file is scanned, but the returned value is only
    the results mapping — the skip entry recorded in the function's local
    `skipped` list is absent from the caller-visible result. -/
theorem c6_skipped_list_dropped :
    scan_project none
        [("app.js", Except.error "Read failure"),
         ("ok.js", Except.ok (str_bytes "useState(0)"))]
      = [("ok.js", ["useState"])]
    ∧ (scan_project_impl none
        [("app.js", Except.error "Read failure"),
         ("ok.js", Except.ok (str_bytes "useState(0)"))]).2
      = [("app.js", "Read failure")] :=
  ⟨rfl, rfl⟩

theorem matchLit_eq_some : ∀ {p l r : List Char}, matchLit p l = some r → l = p ++ r := by
  intro p
  induction p with
  | nil =>
    intro l r h
    unfold matchLit at h
    rw [Option.some.inj h]
    rfl
  | cons c ps ih =>
    intro l r h
    cases l with
    | nil => cases h
    | cons d ds =>
      unfold matchLit at h
      by_cases hcd : c == d
      · rw [if_pos hcd] at h
        have hds := ih h
        have hcd' : c = d := by simpa using hcd
        rw [List.cons_append, ← hcd', hds]
      · rw [if_neg hcd] at h
        cases h

theorem matchLit_self : ∀ (p r : List Char), matchLit p (p ++ r) = some r := by
  intro p r
  induction p with
  | nil => rfl
  | cons c ps ih =>
    simp only [List.cons_append, matchLit, beq_self_eq_true, if_true]
    exact ih

theorem skipSpaces_sound : ∀ (l : List Char),
    ∃ sp, l = sp ++ (skipSpaces l).2 ∧ sp.length = (skipSpaces l).1
      ∧ ∀ c ∈ sp, isSpaceCh c = true := by
  intro l
  induction l with
  | nil => exact ⟨[], rfl, rfl, by simp⟩
  | cons c cs ih =>
    by_cases hc : isSpaceCh c = true
    · rcases ih with ⟨sp, h1, h2, h3⟩
      refine ⟨c :: sp, ?_, ?_, ?_⟩
      · simp only [skipSpaces, hc, if_true]
        rw [List.cons_append, ← h1]
      · simp only [skipSpaces, hc, if_true, List.length_cons]
        omega
      · intro x hx
        rcases List.mem_cons.1 hx with rfl | hx'
        · exact hc
        · exact h3 x hx'
    · refine ⟨[], ?_, ?_, by simp⟩
      · simp only [skipSpaces, hc, if_false]
        rfl
      · simp only [skipSpaces, hc, if_false]
        rfl

theorem tryAlt_sound {finals alt l : List Char} {n : Nat}
    (h : tryAlt true finals alt l = some n) :
    ∃ sp f r, l = alt ++ (sp ++ f :: r) ∧ (∀ c ∈ sp, isSpaceCh c = true)
      ∧ finals.contains f = true ∧ n = alt.length + sp.length + 1 := by
  unfold tryAlt at h
  rcases hm : matchLit alt l with _ | rest
  · rw [hm] at h
    cases h
  · rw [hm] at h
    dsimp only at h
    rcases hs : skipSpaces rest with ⟨nsp, r2⟩
    rw [hs] at h
    cases r2 with
    | nil => cases h
    | cons c r2' =>
      dsimp only at h
      by_cases hf : finals.contains c = true
      · rw [if_pos hf] at h
        have hn := Option.some.inj h
        rcases skipSpaces_sound rest with ⟨sp, h1, h2, h3⟩
        rw [hs] at h1 h2
        refine ⟨sp, c, r2', ?_, h3, hf, ?_⟩
        · rw [matchLit_eq_some hm, h1]
        · dsimp at h2
          omega
      · rw [if_neg hf] at h
        cases h

theorem tryAlts_sound {finals : List Char} {alts : List (List Char)} {l a : List Char} {n : Nat}
    (h : tryAlts true finals alts l = some (a, n)) :
    a ∈ alts ∧ ∃ sp f r, l = a ++ (sp ++ f :: r) ∧ (∀ c ∈ sp, isSpaceCh c = true)
      ∧ finals.contains f = true ∧ n = a.length + sp.length + 1 := by
  induction alts with
  | nil => cases h
  | cons a0 rest ih =>
    unfold tryAlts at h
    rcases h0 : tryAlt true finals a0 l with _ | n0
    · rw [h0] at h
      rcases ih h with ⟨hmem, rest'⟩
      exact ⟨List.mem_cons_of_mem _ hmem, rest'⟩
    · rw [h0] at h
      have hpair := Option.some.inj h
      have ha : a0 = a := congrArg Prod.fst hpair
      have hn : n0 = n := congrArg Prod.snd hpair
      subst ha
      subst hn
      rcases tryAlt_sound h0 with ⟨sp, f, r, h1, h2, h3, h4⟩
      exact ⟨List.mem_cons_self _ _, sp, f, r, h1, h2, h3, h4⟩

theorem tryPat_sound {p : LinPat} {prev : Option Char} {l a : List Char} {n : Nat}
    (htail : p.hasTail = true)
    (h : tryPat p prev l = some (a, n)) :
    a ∈ p.alts ∧ ∃ sp f r, l = p.stem ++ (a ++ (sp ++ f :: r))
      ∧ (∀ c ∈ sp, isSpaceCh c = true) ∧ p.finals.contains f = true
      ∧ n = p.stem.length + (a.length + sp.length + 1) := by
  unfold tryPat at h
  by_cases hb : (p.boundary && !boundary_ok prev) = true
  · rw [if_pos hb] at h
    cases h
  · rw [if_neg hb] at h
    rcases hm : matchLit p.stem l with _ | rest
    · rw [hm] at h
      cases h
    · rw [hm] at h
      dsimp only at h
      rcases hta : tryAlts p.hasTail p.finals p.alts rest with _ | an
      · rw [hta] at h
        cases h
      · rw [hta] at h
        simp only [Option.map] at h
        have hpair := Option.some.inj h
        have hfst : an.1 = a := congrArg Prod.fst hpair
        have hsnd : p.stem.length + an.2 = n := congrArg Prod.snd hpair
        rw [htail] at hta
        rcases an with ⟨a', n'⟩
        dsimp only at hfst hsnd
        subst hfst
        rcases tryAlts_sound hta with ⟨hmem, sp, f, r, h1, h2, h3, h4⟩
        refine ⟨hmem, sp, f, r, ?_, h2, h3, ?_⟩
        · rw [matchLit_eq_some hm, h1]
        · omega

theorem word_not_space {c : Char} (h : isWordCh c = true) : isSpaceCh c = false := by
  cases hsp : isSpaceCh c
  · rfl
  · exfalso
    have hsp' : c = ' ' ∨ c = '\t' ∨ c = '\n' ∨ c = '\r'
        ∨ c = Char.ofNat 11 ∨ c = Char.ofNat 12 := by
      unfold isSpaceCh at hsp
      simp only [Bool.or_eq_true, beq_iff_eq] at hsp
      tauto
    rcases hsp' with h1 | h1 | h1 | h1 | h1 | h1 <;>
      exact absurd (h1 ▸ h) (by decide)

theorem word_ne_paren {c : Char} (h : isWordCh c = true) : c ≠ '(' := by
  intro he
  subst he
  exact absurd h (by decide)

/-- If the same text decomposes both as `X ++ Y` and as `P ++ c :: Q'` with
    the split of the second inside `X`, then `c` occurs in `X` past
    position `P.length`. -/
theorem char_at_split {l X Y P Q' : List Char} {c : Char}
    (h1 : l = X ++ Y) (h2 : l = P ++ c :: Q') (hlen : P.length < X.length) :
    c ∈ X.drop P.length := by
  have he : X ++ Y = P ++ c :: Q' := h1.symm.trans h2
  have hd : (X ++ Y).drop P.length = c :: Q' := by
    rw [he]
    exact List.drop_left P (c :: Q')
  rw [List.drop_append_of_le_length (Nat.le_of_lt hlen)] at hd
  rcases hX : X.drop P.length with _ | ⟨x0, xs⟩
  · exfalso
    have hlen0 : (X.drop P.length).length = 0 := by
      rw [hX]
      rfl
    rw [List.length_drop] at hlen0
    omega
  · rw [hX] at hd
    simp only [List.cons_append] at hd
    have : x0 = c := (List.cons.inj hd).1
    rw [← this]
    exact List.mem_cons_self x0 xs

/-- `\s*` consumption is exact on a run of spaces followed by a non-space
    head (or the end of input). -/
theorem skipSpaces_exact : ∀ {sp : List Char}, (∀ c ∈ sp, isSpaceCh c = true) →
    ∀ (rest : List Char), (∀ c, rest.head? = some c → isSpaceCh c = false) →
    skipSpaces (sp ++ rest) = (sp.length, rest) := by
  intro sp
  induction sp with
  | nil =>
    intro _ rest hr
    cases rest with
    | nil => rfl
    | cons c cs =>
      simp only [List.nil_append, skipSpaces]
      rw [if_neg (by simp [hr c rfl])]
      rfl
  | cons s ss ih =>
    intro hsp rest hr
    simp only [List.cons_append, skipSpaces]
    rw [if_pos (hsp s (List.mem_cons_self s ss))]
    show ((skipSpaces (ss ++ rest)).1 + 1, (skipSpaces (ss ++ rest)).2)
      = ((s :: ss).length, rest)
    rw [ih (fun c hc => hsp c (List.mem_cons_of_mem s hc)) rest hr]
    rfl

/-- The `extends` matcher succeeds on a literal
    `extends  React.Component` occurrence, capturing `Component`. -/
theorem tryExtends_hit_comp (s0 : Char) (sp' post : List Char)
    (hs0 : isSpaceCh s0 = true) (hsp : ∀ c ∈ sp', isSpaceCh c = true)
    (prev : Option Char) :
    tryExtends prev
      ("extends".data ++ ((s0 :: sp') ++ ("React.".data ++ ("Component".data ++ post))))
      = some ("Component".data, 7 + (s0 :: sp').length + 6 + 9) := by
  have hss : skipSpaces ((s0 :: sp') ++ ("React.".data ++ ("Component".data ++ post)))
      = (Nat.succ sp'.length, "React.".data ++ ("Component".data ++ post)) := by
    have h := @skipSpaces_exact (s0 :: sp')
      (by
        intro c hc
        rcases List.mem_cons.1 hc with h | h
        · exact h ▸ hs0
        · exact hsp c h)
      ("React.".data ++ ("Component".data ++ post))
      (by
        intro c hc
        rw [show "React.".data = 'R' :: "eact.".data from rfl] at hc
        simp only [List.cons_append, List.head?] at hc
        cases hc
        decide)
    rw [List.length_cons] at h
    exact h
  unfold tryExtends
  rw [matchLit_self]
  dsimp only
  rw [hss]
  rfl

/-- The `extends` matcher succeeds on a literal
    `extends  React.PureComponent` occurrence, capturing `PureComponent`. -/
theorem tryExtends_hit_pure (s0 : Char) (sp' post : List Char)
    (hs0 : isSpaceCh s0 = true) (hsp : ∀ c ∈ sp', isSpaceCh c = true)
    (prev : Option Char) :
    tryExtends prev
      ("extends".data ++ ((s0 :: sp') ++ ("React.".data ++ ("PureComponent".data ++ post))))
      = some ("PureComponent".data, 7 + (s0 :: sp').length + 6 + 13) := by
  have hss : skipSpaces ((s0 :: sp') ++ ("React.".data ++ ("PureComponent".data ++ post)))
      = (Nat.succ sp'.length, "React.".data ++ ("PureComponent".data ++ post)) := by
    have h := @skipSpaces_exact (s0 :: sp')
      (by
        intro c hc
        rcases List.mem_cons.1 hc with h | h
        · exact h ▸ hs0
        · exact hsp c h)
      ("React.".data ++ ("PureComponent".data ++ post))
      (by
        intro c hc
        rw [show "React.".data = 'R' :: "eact.".data from rfl] at hc
        simp only [List.cons_append, List.head?] at hc
        cases hc
        decide)
    rw [List.length_cons] at h
    exact h
  have hcp : matchLit "Component".data ("PureComponent".data ++ post) = none := by
    rw [show "Component".data = 'C' :: "omponent".data from rfl,
      show "PureComponent".data = 'P' :: "ureComponent".data from rfl]
    simp only [List.cons_append, matchLit]
    rw [if_neg (by decide)]
  unfold tryExtends
  rw [matchLit_self]
  dsimp only
  rw [hss]
  rfl

/-- A member of a collected list is a member of its sorted
    deduplication. -/
theorem mem_sorted_unique {s : String} {l : List String} (h : s ∈ l) :
    s ∈ sorted_unique l :=
  (List.perm_insertionSort pyStrLe l.dedup).mem_iff.2 (List.mem_dedup.2 h)

/-- A source file whose only React usage is a named import specifier. -/
def importFileText : String := "import \x7b createRoot \x7d from \x22react-dom/client\x22;\n"

/-- The bytes of that file on disk (pure ASCII). -/
def importFileBytes : List Nat := str_bytes importFileText

/-- Modelled from the spec: the esprima parse tree of `importFileText` — a
    Program whose single body statement is an ImportDeclaration with one
    ImportSpecifier binding `createRoot` from the `react-dom/client`
    source. -/
def importFileTree : JNode :=
  .jobj (.fcons "type" (.jstr "Program")
    (.fcons "body" (.jarr (.econs
      (.jobj (.fcons "type" (.jstr "ImportDeclaration")
        (.fcons "specifiers" (.jarr (.econs
          (.jobj (.fcons "type" (.jstr "ImportSpecifier")
            (.fcons "imported" (.jobj (.fcons "type" (.jstr "Identifier")
              (.fcons "name" (.jstr "createRoot") .fnil)))
            (.fcons "local" (.jobj (.fcons "type" (.jstr "Identifier")
              (.fcons "name" (.jstr "createRoot") .fnil)))
            .fnil))))
          .enil))
        (.fcons "source" (.jobj (.fcons "type" (.jstr "Literal")
          (.fcons "value" (.jstr "react-dom/client") .fnil)))
        .fnil))))
      .enil))
    .fnil))

/-- A parser configuration that parses `importFileText` to that tree. -/
def importFileEsprima : Esprima :=
  { parseScript := fun _ => some importFileTree
  , parseModule := fun _ => some importFileTree }

/-- C8, counterexample to the original claim: on a file whose only React
    usage is an import specifier, the structural extractor returns
    `createRoot` (the walker has an ImportDeclaration branch) while the
    lexical fallback returns nothing (none of its seven rules matches
    an occurrence inside an ImportSpecifier), so the structural result
    is not a subset of the lexical result. -/
theorem c8_counterexample :
    extract_api_calls_ast (some importFileEsprima) (Except.ok importFileBytes)
      = Except.ok ["createRoot"]
  ∧ extract_api_calls_regex (Except.ok importFileBytes) = Except.ok ([] : List String)
  ∧ "createRoot" ∈ ["createRoot"] ∧ "createRoot" ∉ ([] : List String) := by
  refine ⟨rfl, rfl, by decide, by decide⟩

/-- A block of word characters, optional spaces and one non-word non-space
    character is determined by the text: two such decompositions of the same
    text have the same word block. -/
theorem align_word_block : ∀ (A T S S2 R Q : List Char) (g g2 : Char),
    A ++ (S ++ (g :: R)) = T ++ (S2 ++ (g2 :: Q)) →
    (∀ c ∈ A, isWordCh c = true) → (∀ c ∈ S, isSpaceCh c = true) →
    (∀ c ∈ T, isWordCh c = true) → (∀ c ∈ S2, isSpaceCh c = true) →
    isWordCh g = false → isSpaceCh g = false →
    isWordCh g2 = false → isSpaceCh g2 = false →
    A = T := by
  intro A
  induction A with
  | nil =>
    intro T S S2 R Q g g2 h hA hS hT hS2 hgw hgs hg2w hg2s
    cases T with
    | nil => rfl
    | cons t ts =>
      exfalso
      have hw := hT t (List.mem_cons_self t ts)
      cases S with
      | nil =>
        simp only [List.nil_append, List.cons_append] at h
        have hhd : g = t := (List.cons.inj h).1
        rw [hhd] at hgw
        rw [hgw] at hw
        cases hw
      | cons s ss =>
        simp only [List.nil_append, List.cons_append] at h
        have hhd : s = t := (List.cons.inj h).1
        have hs := hS s (List.mem_cons_self s ss)
        rw [hhd, word_not_space hw] at hs
        cases hs
  | cons a as ih =>
    intro T S S2 R Q g g2 h hA hS hT hS2 hgw hgs hg2w hg2s
    cases T with
    | nil =>
      exfalso
      have hw := hA a (List.mem_cons_self a as)
      cases S2 with
      | nil =>
        simp only [List.nil_append, List.cons_append] at h
        have hhd : a = g2 := (List.cons.inj h).1
        rw [hhd, hg2w] at hw
        cases hw
      | cons s ss =>
        simp only [List.nil_append, List.cons_append] at h
        have hhd : a = s := (List.cons.inj h).1
        have hs := hS2 s (List.mem_cons_self s ss)
        rw [← hhd, word_not_space hw] at hs
        cases hs
    | cons t ts =>
      simp only [List.cons_append] at h
      have hhd : a = t := (List.cons.inj h).1
      have has : as = ts :=
        ih ts S S2 R Q g g2 (List.cons.inj h).2
          (fun c hc => hA c (List.mem_cons_of_mem a hc)) hS
          (fun c hc => hT c (List.mem_cons_of_mem t hc)) hS2 hgw hgs hg2w hg2s
      rw [hhd, has]

/-- A word-spaces-paren span starting strictly before a word-boundary
    occurrence of a word character cannot reach into it: the span ends at
    or before the occurrence start. -/
theorem noCover_boundary : ∀ (P : List Char), P ≠ [] →
    ∀ (A S R : List Char) (t0 : Char) (rest l : List Char),
      l = A ++ (S ++ ('(' :: R)) →
      l = P ++ (t0 :: rest) →
      (∀ c ∈ A, isWordCh c = true) → (∀ c ∈ S, isSpaceCh c = true) →
      isWordCh t0 = true →
      (∀ h : P ≠ [], isWordCh (P.getLast h) = false) →
      A.length + S.length + 1 ≤ P.length := by
  intro P
  induction P with
  | nil => intro h; exact absurd rfl h
  | cons p0 P' ih =>
    intro _ A S R t0 rest l h1 h2 hA hS ht0 hlast
    by_cases hP' : P' = []
    · subst hP'
      cases A with
      | cons a as =>
        exfalso
        rw [h1] at h2
        simp only [List.cons_append, List.singleton_append] at h2
        have hhd : a = p0 := (List.cons.inj h2).1
        have hw := hA a (List.mem_cons_self a as)
        rw [hhd] at hw
        have := hlast (by simp)
        simp only [List.getLast_singleton] at this
        rw [this] at hw
        cases hw
      | nil =>
        cases S with
        | nil => simp
        | cons s ss =>
          exfalso
          rw [h1] at h2
          simp only [List.nil_append, List.cons_append, List.singleton_append] at h2
          have htl := (List.cons.inj h2).2
          cases ss with
          | nil =>
            simp only [List.nil_append] at htl
            have hhd : '(' = t0 := (List.cons.inj htl).1
            rw [← hhd] at ht0
            exact absurd ht0 (by decide)
          | cons s2 ss2 =>
            simp only [List.cons_append] at htl
            have hhd : s2 = t0 := (List.cons.inj htl).1
            have hs := hS s2 (List.mem_cons_of_mem s (List.mem_cons_self s2 ss2))
            rw [hhd, word_not_space ht0] at hs
            cases hs
    · have hlast' : ∀ h : P' ≠ [], isWordCh (P'.getLast h) = false := by
        intro h
        have := hlast (by simp)
        rw [List.getLast_cons h] at this
        exact this
      cases A with
      | cons a as =>
        rw [h1] at h2
        simp only [List.cons_append] at h2
        have htl := (List.cons.inj h2).2
        have := ih hP' as S R t0 rest (as ++ (S ++ ('(' :: R))) rfl htl
          (fun c hc => hA c (List.mem_cons_of_mem a hc)) hS ht0 hlast'
        simp only [List.length_cons]
        omega
      | nil =>
        cases S with
        | nil =>
          simp only [List.length_cons, List.length_nil]
          omega
        | cons s ss =>
          rw [h1] at h2
          simp only [List.nil_append, List.cons_append] at h2
          have htl := (List.cons.inj h2).2
          have := ih hP' [] ss R t0 rest (ss ++ ('(' :: R)) (by simp) htl (by simp)
            (fun c hc => hS c (List.mem_cons_of_mem s hc)) ht0 hlast'
          simp only [List.length_cons, List.length_nil] at this ⊢
          omega

/-- A branch with tail succeeds on its own literal text followed by spaces
    and an allowed final character, consuming through that character. -/
theorem tryAlt_hit_tail (alt sp post : List Char) (finals : List Char) (f : Char)
    (hsp : ∀ c ∈ sp, isSpaceCh c = true) (hfs : isSpaceCh f = false)
    (hfin : finals.contains f = true) :
    tryAlt true finals alt (alt ++ (sp ++ (f :: post)))
      = some (alt.length + sp.length + 1) := by
  have hss : skipSpaces (sp ++ (f :: post)) = (sp.length, f :: post) :=
    @skipSpaces_exact sp hsp (f :: post)
      (by
        intro c hc
        simp only [List.head?] at hc
        cases hc
        exact hfs)
  unfold tryAlt
  rw [matchLit_self]
  dsimp only
  rw [hss]
  dsimp only
  rw [if_pos hfin]
  rfl

/-- A branch with tail fails on an occurrence of a different word block
    followed by spaces and a non-word non-space character. -/
theorem tryAlt_miss_tail {alt' target : List Char} {finals : List Char}
    (sp post : List Char) (f : Char)
    (hw' : ∀ c ∈ alt', isWordCh c = true) (hwt : ∀ c ∈ target, isWordCh c = true)
    (hsp : ∀ c ∈ sp, isSpaceCh c = true)
    (hfw : isWordCh f = false) (hfs : isSpaceCh f = false)
    (hfinals : ∀ c, finals.contains c = true → isWordCh c = false ∧ isSpaceCh c = false)
    (hne : alt' ≠ target) :
    tryAlt true finals alt' (target ++ (sp ++ (f :: post))) = none := by
  rcases hv : tryAlt true finals alt' (target ++ (sp ++ (f :: post))) with _ | n
  · rfl
  · exfalso
    rcases tryAlt_sound hv with ⟨sp', f', r', hdec, hsp', hf', _⟩
    exact hne (align_word_block alt' target sp' sp r' post f' f hdec.symm hw' hsp' hwt hsp
      (hfinals f' hf').1 (hfinals f' hf').2 hfw hfs)

/-- The alternation (tried in source order, with tail) returns exactly the
    occurring branch. -/
theorem tryAlts_hit_tail {alts : List (List Char)} {target : List Char}
    {finals : List Char} (sp post : List Char) (f : Char)
    (hmem : target ∈ alts) (hw : ∀ a ∈ alts, ∀ c ∈ a, isWordCh c = true)
    (hsp : ∀ c ∈ sp, isSpaceCh c = true)
    (hfin : finals.contains f = true)
    (hfinals : ∀ c, finals.contains c = true → isWordCh c = false ∧ isSpaceCh c = false) :
    tryAlts true finals alts (target ++ (sp ++ (f :: post)))
      = some (target, target.length + sp.length + 1) := by
  induction alts with
  | nil => cases hmem
  | cons a0 rest ih =>
    unfold tryAlts
    by_cases ha : a0 = target
    · subst ha
      rw [tryAlt_hit_tail a0 sp post finals f hsp (hfinals f hfin).2 hfin]
    · have hmem' : target ∈ rest := by
        rcases List.mem_cons.1 hmem with h | h
        · exact absurd h.symm ha
        · exact h
      rw [tryAlt_miss_tail sp post f (hw a0 (List.mem_cons_self a0 rest)) (hw target hmem)
        hsp (hfinals f hfin).1 (hfinals f hfin).2 hfinals ha]
      exact ih hmem' (fun a hc => hw a (List.mem_cons_of_mem a0 hc))

/-- A boundary pattern fires on an occurrence of one of its names at a
    boundary position, consuming through the spaces and final character. -/
theorem tryPat_hit_nostem {p : LinPat} (hstem : p.stem = []) (htail : p.hasTail = true)
    {target : List Char} (sp post : List Char) (f : Char) (prev : Option Char)
    (hb : boundary_ok prev = true)
    (hmem : target ∈ p.alts) (hw : ∀ a ∈ p.alts, ∀ c ∈ a, isWordCh c = true)
    (hsp : ∀ c ∈ sp, isSpaceCh c = true)
    (hfin : p.finals.contains f = true)
    (hfinals : ∀ c, p.finals.contains c = true → isWordCh c = false ∧ isSpaceCh c = false) :
    tryPat p prev (target ++ (sp ++ (f :: post)))
      = some (target, p.stem.length + (target.length + sp.length + 1)) := by
  unfold tryPat
  rw [if_neg (by simp [hb])]
  rw [hstem]
  simp only [matchLit]
  rw [htail, tryAlts_hit_tail sp post f hmem hw hsp hfin hfinals]
  rfl

/-- A stem pattern (no boundary) fires on a literal occurrence of its stem,
    one of its names, spaces and a final character, at any position. -/
theorem tryPat_hit_stem {p : LinPat} (hbound : p.boundary = false) (htail : p.hasTail = true)
    {target : List Char} (sp post : List Char) (f : Char) (prev : Option Char)
    (hmem : target ∈ p.alts) (hw : ∀ a ∈ p.alts, ∀ c ∈ a, isWordCh c = true)
    (hsp : ∀ c ∈ sp, isSpaceCh c = true)
    (hfin : p.finals.contains f = true)
    (hfinals : ∀ c, p.finals.contains c = true → isWordCh c = false ∧ isSpaceCh c = false) :
    tryPat p prev (p.stem ++ (target ++ (sp ++ (f :: post))))
      = some (target, p.stem.length + (target.length + sp.length + 1)) := by
  unfold tryPat
  rw [if_neg (by simp [hbound])]
  rw [matchLit_self]
  dsimp only
  rw [htail, tryAlts_hit_tail sp post f hmem hw hsp hfin hfinals]
  rfl

/-- Completeness of the finditer scan for the boundary-anchored
    call-expression rules: a hook or factory name written at a word
    boundary and followed (after optional spaces) by an open paren is
    always among the collected groups. -/
theorem scanGo_complete_nostem (p : LinPat)
    (hstem : p.stem = []) (htail : p.hasTail = true) (hfin : p.finals = ['('])
    (hw : ∀ a ∈ p.alts, ∀ c ∈ a, isWordCh c = true)
    (hne : ∀ a ∈ p.alts, a ≠ []) :
    ∀ (fuel : Nat) (l preC sp2 post target : List Char) (prev : Option Char),
      l.length ≤ fuel →
      target ∈ p.alts →
      (∀ c ∈ sp2, isSpaceCh c = true) →
      l = preC ++ (target ++ (sp2 ++ ('(' :: post))) →
      (∀ c, preC.getLast? = some c → isWordCh c = false) →
      (preC = [] → boundary_ok prev = true) →
      target ∈ scanGo (tryPat p) fuel prev l := by
  have hfinc : p.finals.contains '(' = true := by rw [hfin]; rfl
  have hfinw : ∀ c, p.finals.contains c = true → isWordCh c = false ∧ isSpaceCh c = false := by
    intro c hc
    rw [hfin] at hc
    simp at hc
    subst hc
    decide
  intro fuel
  induction fuel with
  | zero =>
    intro l preC sp2 post target prev hlen hmem hsp hl _ _
    exfalso
    have hlz : l.length = 0 := Nat.le_zero.1 hlen
    rw [hl] at hlz
    simp only [List.length_append, List.length_cons] at hlz
    omega
  | succ fuel ih =>
    intro l preC sp2 post target prev hlen hmem hsp hl hlast hnil
    cases preC with
    | nil =>
      simp only [List.nil_append] at hl
      subst hl
      obtain ⟨t0, ts, htg⟩ := List.exists_cons_of_ne_nil (hne target hmem)
      subst htg
      have hhit := tryPat_hit_nostem hstem htail sp2 post '(' prev (hnil rfl) hmem hw hsp
        hfinc hfinw
      simp only [List.cons_append] at hhit ⊢
      simp only [scanGo]
      rw [hhit]
      exact List.mem_cons_self _ _
    | cons p0 preC' =>
      simp only [List.cons_append] at hl
      subst hl
      have hlenrest : (preC' ++ (target ++ (sp2 ++ ('(' :: post)))).length ≤ fuel := by
        have := hlen
        simp only [List.length_cons] at this
        omega
      rcases htry : tryPat p prev (p0 :: (preC' ++ (target ++ (sp2 ++ ('(' :: post)))))
        with _ | gn
      · have hlast' : ∀ c, preC'.getLast? = some c → isWordCh c = false := by
          intro c hc
          apply hlast c
          rw [show p0 :: preC' = [p0] ++ preC' from rfl, List.getLast?_append, hc]
          rfl
        have hnil' : preC' = [] → boundary_ok (some p0) = true := by
          intro hpe
          subst hpe
          have := hlast p0 rfl
          simp [boundary_ok, this]
        have ihres := ih (preC' ++ (target ++ (sp2 ++ ('(' :: post)))) preC' sp2 post target
          (some p0) hlenrest hmem hsp rfl hlast' hnil'
        simp only [scanGo, htry]
        exact ihres
      · rcases gn with ⟨g, n⟩
        rcases tryPat_sound htail htry with ⟨hgmem, spn, fc, r, hdec, hspn, hfcont, hn⟩
        rw [hstem] at hdec hn
        simp only [List.nil_append, List.length_nil] at hdec hn
        have hf' : fc = '(' := by
          rw [hfin] at hfcont
          simpa using hfcont
        subst hf'
        obtain ⟨t0, ts, htg⟩ := List.exists_cons_of_ne_nil (hne target hmem)
        have hPlast : ∀ h : (p0 :: preC') ≠ [], isWordCh ((p0 :: preC').getLast h) = false := by
          intro hh
          apply hlast
          rw [List.getLast?_eq_getLast _ hh]
        have h2 : p0 :: (preC' ++ (target ++ (sp2 ++ ('(' :: post))))
            = (p0 :: preC') ++ (t0 :: (ts ++ (sp2 ++ ('(' :: post)))) := by
          rw [htg]
          simp
        have hcov := noCover_boundary (p0 :: preC') (by simp) g spn r t0
          (ts ++ (sp2 ++ ('(' :: post)))
          (p0 :: (preC' ++ (target ++ (sp2 ++ ('(' :: post))))) hdec h2
          (hw g hgmem) hspn (hw target hmem t0 (htg.symm ▸ List.mem_cons_self t0 ts))
          hPlast
        simp only [List.length_cons] at hcov
        have hdrop : (preC' ++ (target ++ (sp2 ++ ('(' :: post)))).drop (n - 1)
            = preC'.drop (n - 1) ++ (target ++ (sp2 ++ ('(' :: post))) :=
          List.drop_append_of_le_length (by omega)
        have hlendrop : ((preC' ++ (target ++ (sp2 ++ ('(' :: post)))).drop (n - 1)).length
            ≤ fuel := by
          rw [List.length_drop]
          omega
        have hlast'' : ∀ c, (preC'.drop (n - 1)).getLast? = some c → isWordCh c = false := by
          intro c hc
          have hpre' : preC'.getLast? = some c := by
            conv =>
              lhs
              rw [show preC' = preC'.take (n - 1) ++ preC'.drop (n - 1) from
                (List.take_append_drop _ _).symm]
            rw [List.getLast?_append, hc]
            rfl
          apply hlast c
          rw [show p0 :: preC' = [p0] ++ preC' from rfl, List.getLast?_append, hpre']
          rfl
        have hnil'' : preC'.drop (n - 1) = [] →
            boundary_ok ((p0 :: (preC' ++ (target ++ (sp2 ++ ('(' :: post))))).get? (n - 1))
              = true := by
          intro hde
          have hlen0 : preC'.length ≤ n - 1 := by
            have : (preC'.drop (n - 1)).length = 0 := by
              rw [hde]
              rfl
            rw [List.length_drop] at this
            omega
          have hneq : n = preC'.length + 1 := by omega
          have hget : (p0 :: (preC' ++ (target ++ (sp2 ++ ('(' :: post))))).get? (n - 1)
              = (p0 :: preC').getLast? := by
            rw [List.get?_eq_getElem?]
            rw [show p0 :: (preC' ++ (target ++ (sp2 ++ ('(' :: post))))
              = (p0 :: preC') ++ (target ++ (sp2 ++ ('(' :: post))) from rfl]
            rw [List.getElem?_append]
            rw [if_pos (by simp [hneq])]
            rw [List.getLast?_eq_getElem?]
            simp [hneq]
          rcases hlc : (p0 :: preC').getLast? with _ | c0
          · rw [List.getLast?_eq_getLast (p0 :: preC') (by simp)] at hlc
            cases hlc
          · rw [hget, hlc]
            simp [boundary_ok, hlast c0 hlc]
        have ihres := ih ((preC' ++ (target ++ (sp2 ++ ('(' :: post)))).drop (n - 1))
          (preC'.drop (n - 1)) sp2 post target
          ((p0 :: (preC' ++ (target ++ (sp2 ++ ('(' :: post))))).get? (n - 1))
          hlendrop hmem hsp hdrop hlast'' hnil''
        simp only [scanGo, htry]
        exact List.mem_cons_of_mem _ ihres

/-- Soundness of a tailless branch: success means the branch text heads the
    input and the whole branch is consumed. -/
theorem tryAlt_sound_notail {finals alt l : List Char} {n : Nat}
    (h : tryAlt false finals alt l = some n) :
    ∃ r, l = alt ++ r ∧ n = alt.length := by
  unfold tryAlt at h
  rcases hm : matchLit alt l with _ | rest
  · rw [hm] at h
    cases h
  · rw [hm] at h
    dsimp only at h
    exact ⟨rest, matchLit_eq_some hm, (Option.some.inj h).symm⟩

/-- Soundness of a tailless alternation. -/
theorem tryAlts_sound_notail {finals : List Char} {alts : List (List Char)}
    {l a : List Char} {n : Nat}
    (h : tryAlts false finals alts l = some (a, n)) :
    a ∈ alts ∧ ∃ r, l = a ++ r ∧ n = a.length := by
  induction alts with
  | nil => cases h
  | cons a0 rest ih =>
    unfold tryAlts at h
    rcases h0 : tryAlt false finals a0 l with _ | n0
    · rw [h0] at h
      rcases ih h with ⟨hmem, rest'⟩
      exact ⟨List.mem_cons_of_mem _ hmem, rest'⟩
    · rw [h0] at h
      have hpair := Option.some.inj h
      have ha : a0 = a := congrArg Prod.fst hpair
      have hn : n0 = n := congrArg Prod.snd hpair
      subst ha
      subst hn
      rcases tryAlt_sound_notail h0 with ⟨r, hl, hlen⟩
      exact ⟨List.mem_cons_self _ _, r, hl, hlen⟩

/-- Soundness of a tailless pattern: a match is the stem followed by one of
    the names, and consumes exactly them. -/
theorem tryPat_sound_notail {p : LinPat} {prev : Option Char} {l a : List Char} {n : Nat}
    (hnotail : p.hasTail = false)
    (h : tryPat p prev l = some (a, n)) :
    a ∈ p.alts ∧ ∃ r, l = p.stem ++ (a ++ r) ∧ n = p.stem.length + a.length := by
  unfold tryPat at h
  by_cases hb : (p.boundary && !boundary_ok prev) = true
  · rw [if_pos hb] at h
    cases h
  · rw [if_neg hb] at h
    rcases hm : matchLit p.stem l with _ | rest
    · rw [hm] at h
      cases h
    · rw [hm] at h
      dsimp only at h
      rcases ht : tryAlts p.hasTail p.finals p.alts rest with _ | an
      · rw [ht] at h
        cases h
      · rw [ht] at h
        rcases an with ⟨a0, n0⟩
        have hpair := Option.some.inj h
        have ha : a0 = a := congrArg Prod.fst hpair
        have hn : p.stem.length + n0 = n := congrArg Prod.snd hpair
        subst ha
        rw [hnotail] at ht
        rcases tryAlts_sound_notail ht with ⟨hmem, r, hrest, hlen⟩
        refine ⟨hmem, r, ?_, ?_⟩
        · rw [matchLit_eq_some hm, hrest]
        · omega

/-- A tailless branch succeeds on its own literal text. -/
theorem tryAlt_hit_notail (finals alt rest : List Char) :
    tryAlt false finals alt (alt ++ rest) = some alt.length := by
  unfold tryAlt
  rw [matchLit_self]
  rfl

/-- A tailless alternation whose branches are pairwise prefix-free returns
    exactly the occurring branch. -/
theorem tryAlts_hit_notail {alts : List (List Char)} {target : List Char}
    {finals : List Char} (rest : List Char)
    (hmem : target ∈ alts)
    (hnp : ∀ a ∈ alts, ∀ b ∈ alts, a <+: b → a = b) :
    tryAlts false finals alts (target ++ rest) = some (target, target.length) := by
  induction alts with
  | nil => cases hmem
  | cons a0 rs ih =>
    unfold tryAlts
    by_cases ha : a0 = target
    · subst ha
      rw [tryAlt_hit_notail]
    · have hmem' : target ∈ rs := by
        rcases List.mem_cons.1 hmem with h | h
        · exact absurd h.symm ha
        · exact h
      have hmiss : tryAlt false finals a0 (target ++ rest) = none := by
        rcases hv : tryAlt false finals a0 (target ++ rest) with _ | n0
        · rfl
        · exfalso
          rcases tryAlt_sound_notail hv with ⟨r, hl, _⟩
          have hpre0 : a0 <+: target ++ rest := ⟨r, hl.symm⟩
          have hpret : target <+: target ++ rest := ⟨rest, rfl⟩
          rcases List.prefix_or_prefix_of_prefix hpre0 hpret with hp | hp
          · exact ha (hnp a0 (List.mem_cons_self a0 rs) target hmem hp)
          · exact ha (hnp target hmem a0 (List.mem_cons_self a0 rs) hp).symm
      rw [hmiss]
      exact ih hmem' (fun a hca => fun b hcb =>
        hnp a (List.mem_cons_of_mem a0 hca) b (List.mem_cons_of_mem a0 hcb))

/-- A tailless pattern (no boundary) fires on a literal occurrence of its
    stem and one of its names, at any position. -/
theorem tryPat_hit_notail {p : LinPat} (hbound : p.boundary = false)
    (hnotail : p.hasTail = false)
    {target : List Char} (rest : List Char) (prev : Option Char)
    (hmem : target ∈ p.alts)
    (hnp : ∀ a ∈ p.alts, ∀ b ∈ p.alts, a <+: b → a = b) :
    tryPat p prev (p.stem ++ (target ++ rest))
      = some (target, p.stem.length + target.length) := by
  unfold tryPat
  rw [if_neg (by simp [hbound])]
  rw [matchLit_self]
  dsimp only
  rw [hnotail, tryAlts_hit_notail rest hmem hnp]
  rfl

/-- Completeness of the finditer scan for any matcher that accepts the
    occurrence from every scan state and whose matches never reach into the
    occurrence from an earlier start: the occurrence group is collected. -/
theorem scanGo_complete (t : Option Char → List Char → Option (List Char × Nat))
    (occ g : List Char) (n0 : Nat)
    (hhit : ∀ pv, t pv occ = some (g, n0))
    (hocc : occ ≠ [])
    (hnc : ∀ (pv : Option Char) (preC2 : List Char) (g2 : List Char) (n2 : Nat),
      preC2 ≠ [] → t pv (preC2 ++ occ) = some (g2, n2) → n2 ≤ preC2.length) :
    ∀ (fuel : Nat) (l preC : List Char) (prev : Option Char),
      l.length ≤ fuel →
      l = preC ++ occ →
      g ∈ scanGo t fuel prev l := by
  obtain ⟨o0, orest, hoc⟩ := List.exists_cons_of_ne_nil hocc
  subst hoc
  intro fuel
  induction fuel with
  | zero =>
    intro l preC prev hlen hl
    exfalso
    have hlz : l.length = 0 := Nat.le_zero.1 hlen
    rw [hl] at hlz
    simp only [List.length_append, List.length_cons] at hlz
    omega
  | succ fuel ih =>
    intro l preC prev hlen hl
    cases preC with
    | nil =>
      simp only [List.nil_append] at hl
      subst hl
      simp only [scanGo]
      rw [hhit prev]
      exact List.mem_cons_self _ _
    | cons p0 preC' =>
      simp only [List.cons_append] at hl
      subst hl
      rcases htry : t prev (p0 :: (preC' ++ o0 :: orest)) with _ | gn
      · simp only [scanGo, htry]
        apply ih (preC' ++ o0 :: orest) preC' (some p0)
        · have := hlen
          simp only [List.length_cons] at this
          omega
        · rfl
      · rcases gn with ⟨g2, n2⟩
        have hcov := hnc prev (p0 :: preC') g2 n2 (by simp)
          (by simpa using htry)
        simp only [List.length_cons] at hcov
        have hdrop : (preC' ++ o0 :: orest).drop (n2 - 1)
            = preC'.drop (n2 - 1) ++ o0 :: orest :=
          List.drop_append_of_le_length (by omega)
        simp only [scanGo, htry]
        apply List.mem_cons_of_mem
        apply ih ((preC' ++ o0 :: orest).drop (n2 - 1)) (preC'.drop (n2 - 1))
          ((p0 :: (preC' ++ o0 :: orest)).get? (n2 - 1))
        · rw [List.length_drop]
          have := hlen
          simp only [List.length_cons] at this
          omega
        · exact hdrop

/-- `getElem?` on the left part of an append. -/
theorem getElem_append_left {l1 l2 : List Char} {i : Nat} (h : i < l1.length) :
    (l1 ++ l2)[i]? = l1[i]? := by
  rw [List.getElem?_append, if_pos h]

/-- If the same text splits as `X ++ Y` and as `P ++ Q` with an index inside
    `X` and past `P`, the character there is a character of `Q`. -/
theorem getElem_two_splits {X Y P Q : List Char} (h : X ++ Y = P ++ Q) {i : Nat}
    (h1 : P.length ≤ i) (h2 : i < X.length) :
    X[i]? = Q[i - P.length]? := by
  have e1 : (X ++ Y)[i]? = X[i]? := by
    rw [List.getElem?_append, if_pos h2]
  have e2 : (P ++ Q)[i]? = Q[i - P.length]? := List.getElem?_append_right h1
  rw [← e1, h, e2]

/-- A member of a drop past position one is a member of the tail. -/
theorem mem_drop_one {x : Char} {l : List Char} {k : Nat} (hk : 1 ≤ k)
    (h : x ∈ l.drop k) : x ∈ l.drop 1 := by
  have he : l.drop k = (l.drop 1).drop (k - 1) := by
    rw [List.drop_drop]
    congr 1
    omega
  rw [he] at h
  exact List.mem_of_mem_drop h

/-- A `ReactDOM.`-rule match cannot start strictly before an occurrence of
    `ReactDOM.` and reach into it: the capital R occurs in a match span only
    at its start. -/
theorem noCover_reactdom (target sp post : List Char) :
    ∀ (pv : Option Char) (preC2 g2 : List Char) (n2 : Nat),
      preC2 ≠ [] →
      tryPat patReactDOM pv
        (preC2 ++ ("ReactDOM.".data ++ (target ++ (sp ++ ('(' :: post)))))
        = some (g2, n2) →
      n2 ≤ preC2.length := by
  intro pv preC2 g2 n2 hnil htry
  by_contra hgt
  push_neg at hgt
  rcases tryPat_sound (show patReactDOM.hasTail = true from rfl) htry
    with ⟨hgmem, spn, fc, r, hdec, hspn, hfcont, hn⟩
  rw [show patReactDOM.stem = "ReactDOM.".data from rfl] at hdec
  have hf : fc = '(' := by
    rw [show patReactDOM.finals = ['('] from rfl] at hfcont
    simpa using hfcont
  subst hf
  have heq : ("ReactDOM.".data ++ (g2 ++ (spn ++ ['(']))) ++ r
      = preC2 ++ ("ReactDOM.".data ++ (target ++ (sp ++ ('(' :: post)))) := by
    rw [hdec]
    simp [List.append_assoc]
  have hXlen : ("ReactDOM.".data ++ (g2 ++ (spn ++ ['(']))).length = n2 := by
    rw [hn]
    simp only [List.length_append, List.length_singleton,
      show ("ReactDOM.".data).length = 9 from rfl,
      show patReactDOM.stem.length = 9 from rfl]
    omega
  have hk1 : 1 ≤ preC2.length := List.length_pos.2 hnil
  have hklt : preC2.length < ("ReactDOM.".data ++ (g2 ++ (spn ++ ['(']))).length := by
    rw [hXlen]
    exact hgt
  have hRmem : 'R' ∈ ("ReactDOM.".data ++ (g2 ++ (spn ++ ['(']))).drop preC2.length :=
    char_at_split heq.symm rfl hklt
  have hR1 : 'R' ∈ ("ReactDOM.".data ++ (g2 ++ (spn ++ ['(']))).drop 1 :=
    mem_drop_one hk1 hRmem
  have hd1 : ("ReactDOM.".data ++ (g2 ++ (spn ++ ['(']))).drop 1
      = "eactDOM.".data ++ (g2 ++ (spn ++ ['('])) := rfl
  rw [hd1] at hR1
  rcases List.mem_append.1 hR1 with h | h
  · exact absurd h (by decide)
  rcases List.mem_append.1 h with h | h
  · exact (by decide : ∀ a ∈ patReactDOM.alts, 'R' ∉ a) g2 hgmem h
  rcases List.mem_append.1 h with h | h
  · exact absurd (hspn 'R' h) (by decide)
  · exact absurd h (by decide)

/-- A component-name-rule match cannot start strictly before an occurrence
    of `React.` and reach into it. -/
theorem noCover_components (target post : List Char) :
    ∀ (pv : Option Char) (preC2 g2 : List Char) (n2 : Nat),
      preC2 ≠ [] →
      tryPat patComponents pv (preC2 ++ ("React.".data ++ (target ++ post)))
        = some (g2, n2) →
      n2 ≤ preC2.length := by
  intro pv preC2 g2 n2 hnil htry
  by_contra hgt
  push_neg at hgt
  rcases tryPat_sound_notail (show patComponents.hasTail = false from rfl) htry
    with ⟨hgmem, r, hdec, hn⟩
  rw [show patComponents.stem = "React.".data from rfl] at hdec
  have heq : ("React.".data ++ g2) ++ r = preC2 ++ ("React.".data ++ (target ++ post)) := by
    rw [hdec]
    simp [List.append_assoc]
  have hXlen : ("React.".data ++ g2).length = n2 := by
    rw [hn]
    simp only [List.length_append,
      show ("React.".data).length = 6 from rfl,
      show patComponents.stem.length = 6 from rfl]
  have hk1 : 1 ≤ preC2.length := List.length_pos.2 hnil
  have hklt : preC2.length < ("React.".data ++ g2).length := by
    rw [hXlen]
    exact hgt
  have hRmem : 'R' ∈ ("React.".data ++ g2).drop preC2.length :=
    char_at_split heq.symm rfl hklt
  have hR1 : 'R' ∈ ("React.".data ++ g2).drop 1 := mem_drop_one hk1 hRmem
  have hd1 : ("React.".data ++ g2).drop 1 = "eact.".data ++ g2 := rfl
  rw [hd1] at hR1
  rcases List.mem_append.1 hR1 with h | h
  · exact absurd h (by decide)
  · exact (by decide : ∀ a ∈ patComponents.alts, 'R' ∉ a) g2 hgmem h

/-- A `React.`-method-rule match cannot start strictly before an occurrence
    of `React.` and reach into it: a capital R inside a match span past its
    start can only sit inside `createRef` or `forwardRef`, where the second
    character after it is an f, while an occurrence has an a there. -/
theorem noCover_react (target sp post : List Char) (f : Char) :
    ∀ (pv : Option Char) (preC2 g2 : List Char) (n2 : Nat),
      preC2 ≠ [] →
      tryPat patReact pv
        (preC2 ++ ("React.".data ++ (target ++ (sp ++ (f :: post)))))
        = some (g2, n2) →
      n2 ≤ preC2.length := by
  intro pv preC2 g2 n2 hnil htry
  by_contra hgt
  push_neg at hgt
  rcases tryPat_sound (show patReact.hasTail = true from rfl) htry
    with ⟨hgmem, spn, fc, r, hdec, hspn, hfcont, hn⟩
  rw [show patReact.stem = "React.".data from rfl] at hdec
  have hfc : fc = '(' ∨ fc = '<' := by
    rw [show patReact.finals = ['(', '<'] from rfl] at hfcont
    simpa using hfcont
  have heq : ("React.".data ++ (g2 ++ (spn ++ [fc]))) ++ r
      = preC2 ++ ("React.".data ++ (target ++ (sp ++ (f :: post)))) := by
    rw [hdec]
    simp [List.append_assoc]
  have hXlen : ("React.".data ++ (g2 ++ (spn ++ [fc]))).length = n2 := by
    rw [hn]
    simp only [List.length_append, List.length_singleton,
      show ("React.".data).length = 6 from rfl,
      show patReact.stem.length = 6 from rfl]
    omega
  have hk1 : 1 ≤ preC2.length := List.length_pos.2 hnil
  have hklt : preC2.length < ("React.".data ++ (g2 ++ (spn ++ [fc]))).length := by
    rw [hXlen]
    exact hgt
  have h0 : ("React.".data ++ (g2 ++ (spn ++ [fc])))[preC2.length]? = some 'R' := by
    have h0' := getElem_two_splits heq (Nat.le_refl preC2.length) hklt
    rw [Nat.sub_self] at h0'
    rw [h0']
    rfl
  by_cases hk6 : preC2.length < 6
  · have h6 : ("React.".data)[preC2.length]? = some 'R' := by
      rw [getElem_append_left (show preC2.length < ("React.".data).length from hk6)] at h0
      exact h0
    have hz := (by decide : ∀ i, i < 6 → ("React.".data)[i]? = some 'R' → i = 0)
      preC2.length hk6 h6
    omega
  · push_neg at hk6
    rw [List.getElem?_append_right (show ("React.".data).length ≤ preC2.length from hk6)]
      at h0
    have h0w : (g2 ++ (spn ++ [fc]))[preC2.length - 6]? = some 'R' := h0
    by_cases hja : preC2.length - 6 < g2.length
    · have hg2j : g2[preC2.length - 6]? = some 'R' := by
        rw [getElem_append_left hja] at h0w
        exact h0w
      have hfact := (by decide :
        ∀ a ∈ patReact.alts, ∀ j, j < a.length → a[j]? = some 'R' →
          j + 2 < a.length ∧ a[j + 2]? = some 'f') g2 hgmem (preC2.length - 6) hja hg2j
      have hklt2 : preC2.length + 2 < ("React.".data ++ (g2 ++ (spn ++ [fc]))).length := by
        have hxl : ("React.".data ++ (g2 ++ (spn ++ [fc]))).length
            = 6 + (g2.length + (spn.length + 1)) := by
          simp only [List.length_append, List.length_singleton,
            show ("React.".data).length = 6 from rfl]
        rw [hxl]
        omega
      have h2g := getElem_two_splits heq (by omega) hklt2
      have hsub : preC2.length + 2 - preC2.length = 2 := by omega
      rw [hsub] at h2g
      have hocc2 : ("React.".data ++ (target ++ (sp ++ (f :: post))))[2]? = some 'a' := rfl
      rw [hocc2] at h2g
      have hXk2 : ("React.".data ++ (g2 ++ (spn ++ [fc])))[preC2.length + 2]?
          = g2[preC2.length - 6 + 2]? := by
        rw [List.getElem?_append_right
          (show ("React.".data).length ≤ preC2.length + 2 by
            have : (6 : Nat) ≤ preC2.length + 2 := by omega
            exact this)]
        have hidx : preC2.length + 2 - ("React.".data).length = preC2.length - 6 + 2 := by
          have : preC2.length + 2 - 6 = preC2.length - 6 + 2 := by omega
          exact this
        rw [hidx]
        rw [getElem_append_left hfact.1]
      rw [hXk2, hfact.2] at h2g
      exact absurd (Option.some.inj h2g) (by decide)
    · push_neg at hja
      rw [List.getElem?_append_right hja] at h0w
      by_cases hjs : preC2.length - 6 - g2.length < spn.length
      · have hsj : spn[preC2.length - 6 - g2.length]? = some 'R' := by
          rw [getElem_append_left hjs] at h0w
          exact h0w
        exact absurd (hspn 'R' (List.getElem?_mem hsj)) (by decide)
      · push_neg at hjs
        rw [List.getElem?_append_right hjs] at h0w
        have hfr : 'R' ∈ [fc] := List.getElem?_mem h0w
        have : 'R' = fc := by simpa using hfr
        rcases hfc with rfl | rfl <;> cases this

/-- Soundness of the `extends` matcher: a match is the literal `extends`,
    at least one space, `React.` and one of the two class names, consuming
    exactly that span. -/
theorem tryExtends_sound {prev : Option Char} {l g : List Char} {n : Nat}
    (h : tryExtends prev l = some (g, n)) :
    ∃ sp r, (g = "Component".data ∧ n = 7 + sp.length + 6 + 9
        ∨ g = "PureComponent".data ∧ n = 7 + sp.length + 6 + 13)
      ∧ l = "extends".data ++ (sp ++ ("React.".data ++ (g ++ r)))
      ∧ sp ≠ [] ∧ (∀ c ∈ sp, isSpaceCh c = true) := by
  unfold tryExtends at h
  rcases hm : matchLit "extends".data l with _ | r1
  · rw [hm] at h
    cases h
  · rw [hm] at h
    dsimp only at h
    rcases hs : skipSpaces r1 with ⟨nsp, r2⟩
    rw [hs] at h
    obtain ⟨sp, hr1, hlen, hsp⟩ := skipSpaces_sound r1
    rw [hs] at hr1 hlen
    cases nsp with
    | zero => cases h
    | succ m =>
      have h2 : (match matchLit "React.".data r2 with
          | none => none
          | some r3 =>
            match matchLit "Component".data r3 with
            | some _ => some ("Component".data, 7 + (m + 1) + 6 + 9)
            | none =>
              match matchLit "PureComponent".data r3 with
              | some _ => some ("PureComponent".data, 7 + (m + 1) + 6 + 13)
              | none => none) = some (g, n) := h
      clear h
      rcases hm2 : matchLit "React.".data r2 with _ | r3
      · rw [hm2] at h2
        cases h2
      · rw [hm2] at h2
        dsimp only at h2
        have hspne : sp ≠ [] := by
          intro he
          rw [he] at hlen
          cases hlen
        rcases hm3 : matchLit "Component".data r3 with _ | r4
        · rw [hm3] at h2
          dsimp only at h2
          rcases hm4 : matchLit "PureComponent".data r3 with _ | r5
          · rw [hm4] at h2
            cases h2
          · rw [hm4] at h2
            dsimp only at h2
            have hg : "PureComponent".data = g :=
              congrArg Prod.fst (Option.some.inj h2)
            have hn : 7 + (m + 1) + 6 + 13 = n :=
              congrArg Prod.snd (Option.some.inj h2)
            refine ⟨sp, r5, Or.inr ⟨hg.symm, by omega⟩, ?_, hspne, hsp⟩
            rw [matchLit_eq_some hm, hr1, matchLit_eq_some hm2, matchLit_eq_some hm4,
              ← hg]
        · rw [hm3] at h2
          dsimp only at h2
          have hg : "Component".data = g :=
            congrArg Prod.fst (Option.some.inj h2)
          have hn : 7 + (m + 1) + 6 + 9 = n :=
            congrArg Prod.snd (Option.some.inj h2)
          refine ⟨sp, r4, Or.inl ⟨hg.symm, by omega⟩, ?_, hspne, hsp⟩
          rw [matchLit_eq_some hm, hr1, matchLit_eq_some hm2, matchLit_eq_some hm3,
            ← hg]

/-- In an `extends`-rule match span the letter x occurs only at offset 1. -/
theorem extends_span_no_x (spn g2 : List Char)
    (hspn : ∀ c ∈ spn, isSpaceCh c = true)
    (hg : g2 = "Component".data ∨ g2 = "PureComponent".data) :
    ∀ i, 2 ≤ i →
      ("extends".data ++ (spn ++ ("React.".data ++ g2)))[i]? ≠ some 'x' := by
  intro i hi hx
  by_cases h7 : i < 7
  · rw [getElem_append_left (show i < ("extends".data).length from h7)] at hx
    have := (by decide : ∀ j, j < 7 → ("extends".data)[j]? = some 'x' → j = 1) i h7 hx
    omega
  · push_neg at h7
    rw [List.getElem?_append_right (show ("extends".data).length ≤ i from h7)] at hx
    have hx7 : (spn ++ ("React.".data ++ g2))[i - 7]? = some 'x' := hx
    by_cases hs : i - 7 < spn.length
    · rw [getElem_append_left hs] at hx7
      exact absurd (hspn 'x' (List.getElem?_mem hx7)) (by decide)
    · push_neg at hs
      rw [List.getElem?_append_right hs] at hx7
      by_cases hr : i - 7 - spn.length < 6
      · rw [getElem_append_left (show i - 7 - spn.length < ("React.".data).length from hr)]
          at hx7
        exact absurd (List.getElem?_mem hx7) (by decide)
      · push_neg at hr
        rw [List.getElem?_append_right
          (show ("React.".data).length ≤ i - 7 - spn.length from hr)] at hx7
        have hxm : 'x' ∈ g2 := List.getElem?_mem hx7
        rcases hg with rfl | rfl <;> exact absurd hxm (by decide)

/-- An `extends`-rule match cannot start strictly before an occurrence of
    `extends React.(Pure)Component` and reach into it: the x of `extends`
    sits at offset 1 of a span and nowhere later, and a span ends in t. -/
theorem noCover_extends (s0 : Char) (sp2 post : List Char) (ext : String) :
    ∀ (pv : Option Char) (preC2 g2 : List Char) (n2 : Nat),
      preC2 ≠ [] →
      tryExtends pv
        (preC2 ++ ("extends".data ++ ((s0 :: sp2) ++ ("React.".data ++ (ext.data ++ post)))))
        = some (g2, n2) →
      n2 ≤ preC2.length := by
  intro pv preC2 g2 n2 hnil htry
  by_contra hgt
  push_neg at hgt
  rcases tryExtends_sound htry with ⟨spn, r, hcase, hdec, hspne, hspn⟩
  have hglen : g2.length = 9 ∧ n2 = 7 + spn.length + 6 + 9
      ∨ g2.length = 13 ∧ n2 = 7 + spn.length + 6 + 13 := by
    rcases hcase with ⟨hg, hn⟩ | ⟨hg, hn⟩
    · exact Or.inl ⟨by rw [hg]; rfl, hn⟩
    · exact Or.inr ⟨by rw [hg]; rfl, hn⟩
  have heq : ("extends".data ++ (spn ++ ("React.".data ++ g2))) ++ r
      = preC2 ++ ("extends".data ++ ((s0 :: sp2) ++ ("React.".data ++ (ext.data ++ post)))) := by
    rw [hdec]
    simp [List.append_assoc]
  have hXlen : ("extends".data ++ (spn ++ ("React.".data ++ g2))).length = n2 := by
    simp only [List.length_append, show ("extends".data).length = 7 from rfl,
      show ("React.".data).length = 6 from rfl]
    omega
  have hk1 : 1 ≤ preC2.length := List.length_pos.2 hnil
  have hklt : preC2.length < ("extends".data ++ (spn ++ ("React.".data ++ g2))).length := by
    rw [hXlen]
    exact hgt
  have h0 : ("extends".data ++ (spn ++ ("React.".data ++ g2)))[preC2.length]? = some 'e' := by
    have h0' := getElem_two_splits heq (Nat.le_refl preC2.length) hklt
    rw [Nat.sub_self] at h0'
    rw [h0']
    rfl
  by_cases hk2 : preC2.length + 1 < ("extends".data ++ (spn ++ ("React.".data ++ g2))).length
  · have h1 : ("extends".data ++ (spn ++ ("React.".data ++ g2)))[preC2.length + 1]?
        = some 'x' := by
      have h1' := getElem_two_splits heq (by omega) hk2
      have hs1 : preC2.length + 1 - preC2.length = 1 := by omega
      rw [hs1] at h1'
      rw [h1']
      rfl
    exact extends_span_no_x spn g2 hspn
      (by rcases hcase with ⟨hg, _⟩ | ⟨hg, _⟩; exact Or.inl hg; exact Or.inr hg)
      (preC2.length + 1) (by omega) h1
  · push_neg at hk2
    have hkeq : preC2.length = ("extends".data ++ (spn ++ ("React.".data ++ g2))).length - 1 := by
      omega
    have hxl : ("extends".data ++ (spn ++ ("React.".data ++ g2))).length
        = 7 + (spn.length + (6 + g2.length)) := by
      simp only [List.length_append, show ("extends".data).length = 7 from rfl,
        show ("React.".data).length = 6 from rfl]
    have hg2pos : 9 ≤ g2.length := by
      rcases hglen with ⟨hg, _⟩ | ⟨hg, _⟩ <;> omega
    have h7k : ("extends".data).length ≤ preC2.length := by
      have : (7 : Nat) ≤ preC2.length := by omega
      exact this
    rw [List.getElem?_append_right h7k] at h0
    have h0b : (spn ++ ("React.".data ++ g2))[preC2.length - 7]? = some 'e' := h0
    have hsple : spn.length ≤ preC2.length - 7 := by omega
    rw [List.getElem?_append_right hsple] at h0b
    have h6le : ("React.".data).length ≤ preC2.length - 7 - spn.length := by
      have : (6 : Nat) ≤ preC2.length - 7 - spn.length := by omega
      exact this
    rw [List.getElem?_append_right h6le] at h0b
    have h0c : g2[preC2.length - 7 - spn.length - 6]? = some 'e' := h0b
    have hidx : preC2.length - 7 - spn.length - 6 = g2.length - 1 := by omega
    rw [hidx] at h0c
    rcases hglen with ⟨hg9, _⟩ | ⟨hg13, _⟩
    · rw [hg9] at h0c
      rcases hcase with ⟨hg, _⟩ | ⟨hg, _⟩
      · rw [hg] at h0c
        exact absurd h0c (by decide)
      · rw [hg] at h0c
        exact absurd h0c (by decide)
    · rw [hg13] at h0c
      rcases hcase with ⟨hg, _⟩ | ⟨hg, _⟩
      · rw [hg] at h0c
        exact absurd h0c (by decide)
      · rw [hg] at h0c
        exact absurd h0c (by decide)

/-- The `React.Children` search test holds at an occurrence. -/
theorem childrenHere_hit (c : Char) (post : List Char) (hw : isWordCh c = true) :
    childrenHere ("React.Children.".data ++ (c :: post)) = true := by
  unfold childrenHere
  rw [matchLit_self]
  exact hw

/-- `re.search` completeness: a literal `React.Children.` followed by a word
    character anywhere in the input makes the search succeed. -/
theorem searchChildren_complete : ∀ (preC : List Char) (c : Char) (post : List Char),
    isWordCh c = true →
    searchChildren (preC ++ ("React.Children.".data ++ (c :: post))) = true := by
  intro preC
  induction preC with
  | nil =>
    intro c post hw
    simp only [List.nil_append]
    have hch : childrenHere ('R' :: ("eact.Children.".data ++ (c :: post))) = true :=
      childrenHere_hit c post hw
    rw [show ("React.Children.".data ++ (c :: post) : List Char)
      = 'R' :: ("eact.Children.".data ++ (c :: post)) from rfl]
    simp only [searchChildren, hch, Bool.true_or]
  | cons p0 rest ih =>
    intro c post hw
    have hch := ih c post hw
    rw [List.cons_append]
    show (childrenHere (p0 :: (rest ++ ("React.Children.".data ++ (c :: post))))
        || searchChildren (rest ++ ("React.Children.".data ++ (c :: post)))) = true
    rw [hch]
    simp

/-- C8 (amended): the original subset claim over the structural extractor is
    refuted by `c8_counterexample` (the lexical rules have no rule for import
    specifiers); what does hold is that each of the seven lexical rules finds
    every literal textual occurrence of its pattern, with no condition on the
    surrounding text beyond the rule itself: (1)-(2) a hook or
    createRoot/hydrateRoot name, preceded by nothing or by an ASCII non-word
    character (where the modelled ASCII `\w` agrees with Python), then
    optional spaces and an open paren; (3) `ReactDOM.` + method + optional
    spaces + paren, anywhere; (4) `React.` + method + optional spaces + a
    paren or angle bracket, anywhere; (5) `React.` + component name,
    anywhere; (6) `extends`, spaces, `React.Component` or
    `React.PureComponent`, anywhere; (7) `React.Children.` + a word
    character, anywhere. -/
theorem c8_lexical_covers_literal_call_forms :
    (∀ (code preC sp post target : List Char),
      target ∈ patHooks.alts →
      (∀ c ∈ sp, isSpaceCh c = true) →
      code = preC ++ (target ++ (sp ++ ('(' :: post))) →
      (∀ c, preC.getLast? = some c → c.toNat ≤ 127 ∧ isWordCh c = false) →
      String.mk target ∈ regexExtract code)
  ∧ (∀ (code preC sp post target : List Char),
      target ∈ patNewAPI.alts →
      (∀ c ∈ sp, isSpaceCh c = true) →
      code = preC ++ (target ++ (sp ++ ('(' :: post))) →
      (∀ c, preC.getLast? = some c → c.toNat ≤ 127 ∧ isWordCh c = false) →
      String.mk target ∈ regexExtract code)
  ∧ (∀ (code preC sp post target : List Char),
      target ∈ patReactDOM.alts →
      (∀ c ∈ sp, isSpaceCh c = true) →
      code = preC ++ ("ReactDOM.".data ++ (target ++ (sp ++ ('(' :: post)))) →
      ("ReactDOM." ++ String.mk target) ∈ regexExtract code)
  ∧ (∀ (code preC sp post target : List Char) (f : Char),
      target ∈ patReact.alts →
      (∀ c ∈ sp, isSpaceCh c = true) →
      (f = '(' ∨ f = '<') →
      code = preC ++ ("React.".data ++ (target ++ (sp ++ (f :: post)))) →
      ("React." ++ String.mk target) ∈ regexExtract code)
  ∧ (∀ (code preC post target : List Char),
      target ∈ patComponents.alts →
      code = preC ++ ("React.".data ++ (target ++ post)) →
      ("React." ++ String.mk target) ∈ regexExtract code)
  ∧ (∀ (code preC post : List Char) (s0 : Char) (sp2 : List Char) (ext : String),
      (ext = "Component" ∨ ext = "PureComponent") →
      isSpaceCh s0 = true →
      (∀ c ∈ sp2, isSpaceCh c = true) →
      code = preC ++ ("extends".data ++ ((s0 :: sp2) ++ ("React.".data ++ (ext.data ++ post)))) →
      ("React." ++ ext) ∈ regexExtract code)
  ∧ (∀ (code preC post : List Char) (c : Char),
      isWordCh c = true →
      code = preC ++ ("React.Children.".data ++ (c :: post)) →
      "React.Children.map" ∈ regexExtract code) := by
  refine ⟨?_, ?_, ?_, ?_, ?_, ?_, ?_⟩
  · intro code preC sp post target hmem hsp hl hlast
    simp only [regexExtract]
    apply mem_sorted_unique
    simp only [List.mem_append]
    have hfind : target ∈ finditer (tryPat patHooks) code := by
      unfold finditer
      exact scanGo_complete_nostem patHooks rfl rfl rfl (by decide) (by decide)
        code.length code preC sp post target none (Nat.le_refl _) hmem hsp hl
        (fun c hc => (hlast c hc).2) (fun _ => rfl)
    have hm : String.mk target ∈ (finditer (tryPat patHooks) code).map (fun g => String.mk g) :=
      List.mem_map_of_mem _ hfind
    tauto
  · intro code preC sp post target hmem hsp hl hlast
    simp only [regexExtract]
    apply mem_sorted_unique
    simp only [List.mem_append]
    have hfind : target ∈ finditer (tryPat patNewAPI) code := by
      unfold finditer
      exact scanGo_complete_nostem patNewAPI rfl rfl rfl (by decide) (by decide)
        code.length code preC sp post target none (Nat.le_refl _) hmem hsp hl
        (fun c hc => (hlast c hc).2) (fun _ => rfl)
    have hm : String.mk target ∈ (finditer (tryPat patNewAPI) code).map (fun g => String.mk g) :=
      List.mem_map_of_mem _ hfind
    tauto
  · intro code preC sp post target hmem hsp hl
    have hfinals : ∀ c, patReactDOM.finals.contains c = true →
        isWordCh c = false ∧ isSpaceCh c = false := by
      intro c hc
      rw [show patReactDOM.finals = ['('] from rfl] at hc
      simp at hc
      subst hc
      exact ⟨by decide, by decide⟩
    simp only [regexExtract]
    apply mem_sorted_unique
    simp only [List.mem_append]
    have hfind : target ∈ finditer (tryPat patReactDOM) code := by
      unfold finditer
      exact scanGo_complete (tryPat patReactDOM)
        ("ReactDOM.".data ++ (target ++ (sp ++ ('(' :: post)))) target
        (patReactDOM.stem.length + (target.length + sp.length + 1))
        (fun pv => tryPat_hit_stem rfl rfl sp post '(' pv hmem (by decide) hsp
          (by decide) hfinals)
        (by simp [show ("ReactDOM.".data : List Char) = 'R' :: "eactDOM.".data from rfl])
        (noCover_reactdom target sp post)
        code.length code preC none (Nat.le_refl _) hl
    have hm : ("ReactDOM." ++ String.mk target)
        ∈ (finditer (tryPat patReactDOM) code).map (fun g => "ReactDOM." ++ String.mk g) :=
      List.mem_map_of_mem _ hfind
    tauto
  · intro code preC sp post target f hmem hsp hf hl
    have hfinals : ∀ c, patReact.finals.contains c = true →
        isWordCh c = false ∧ isSpaceCh c = false := by
      intro c hc
      rw [show patReact.finals = ['(', '<'] from rfl] at hc
      simp at hc
      rcases hc with rfl | rfl
      · exact ⟨by decide, by decide⟩
      · exact ⟨by decide, by decide⟩
    have hfinf : patReact.finals.contains f = true := by
      rcases hf with rfl | rfl
      · decide
      · decide
    simp only [regexExtract]
    apply mem_sorted_unique
    simp only [List.mem_append]
    have hfind : target ∈ finditer (tryPat patReact) code := by
      unfold finditer
      exact scanGo_complete (tryPat patReact)
        ("React.".data ++ (target ++ (sp ++ (f :: post)))) target
        (patReact.stem.length + (target.length + sp.length + 1))
        (fun pv => tryPat_hit_stem rfl rfl sp post f pv hmem (by decide) hsp
          hfinf hfinals)
        (by simp [show ("React.".data : List Char) = 'R' :: "eact.".data from rfl])
        (noCover_react target sp post f)
        code.length code preC none (Nat.le_refl _) hl
    have hm : ("React." ++ String.mk target)
        ∈ (finditer (tryPat patReact) code).map (fun g => "React." ++ String.mk g) :=
      List.mem_map_of_mem _ hfind
    tauto
  · intro code preC post target hmem hl
    simp only [regexExtract]
    apply mem_sorted_unique
    simp only [List.mem_append]
    have hfind : target ∈ finditer (tryPat patComponents) code := by
      unfold finditer
      exact scanGo_complete (tryPat patComponents)
        ("React.".data ++ (target ++ post)) target
        (patComponents.stem.length + target.length)
        (fun pv => tryPat_hit_notail rfl rfl post pv hmem (by decide))
        (by simp [show ("React.".data : List Char) = 'R' :: "eact.".data from rfl])
        (noCover_components target post)
        code.length code preC none (Nat.le_refl _) hl
    have hm : ("React." ++ String.mk target)
        ∈ (finditer (tryPat patComponents) code).map (fun g => "React." ++ String.mk g) :=
      List.mem_map_of_mem _ hfind
    tauto
  · intro code preC post s0 sp2 ext hext hs0 hsp hl
    simp only [regexExtract]
    apply mem_sorted_unique
    simp only [List.mem_append]
    rcases hext with rfl | rfl
    · have hfind : "Component".data ∈ finditer tryExtends code := by
        unfold finditer
        exact scanGo_complete tryExtends
          ("extends".data ++ ((s0 :: sp2) ++ ("React.".data ++ ("Component".data ++ post))))
          "Component".data (7 + (s0 :: sp2).length + 6 + 9)
          (fun pv => tryExtends_hit_comp s0 sp2 post hs0 hsp pv)
          (by simp [show ("extends".data : List Char) = 'e' :: "xtends".data from rfl])
          (noCover_extends s0 sp2 post "Component")
          code.length code preC none (Nat.le_refl _) hl
      have hm : ("React." ++ "Component")
          ∈ (finditer tryExtends code).map (fun g => "React." ++ String.mk g) :=
        List.mem_map_of_mem _ hfind
      tauto
    · have hfind : "PureComponent".data ∈ finditer tryExtends code := by
        unfold finditer
        exact scanGo_complete tryExtends
          ("extends".data ++ ((s0 :: sp2) ++ ("React.".data ++ ("PureComponent".data ++ post))))
          "PureComponent".data (7 + (s0 :: sp2).length + 6 + 13)
          (fun pv => tryExtends_hit_pure s0 sp2 post hs0 hsp pv)
          (by simp [show ("extends".data : List Char) = 'e' :: "xtends".data from rfl])
          (noCover_extends s0 sp2 post "PureComponent")
          code.length code preC none (Nat.le_refl _) hl
      have hm : ("React." ++ "PureComponent")
          ∈ (finditer tryExtends code).map (fun g => "React." ++ String.mk g) :=
        List.mem_map_of_mem _ hfind
      tauto
  · intro code preC post c hw hl
    have hsc : searchChildren code = true := by
      rw [hl]
      exact searchChildren_complete preC c post hw
    simp only [regexExtract]
    apply mem_sorted_unique
    simp only [List.mem_append]
    have hm : "React.Children.map"
        ∈ (if searchChildren code then ["React.Children.map"] else []) := by
      rw [hsc]
      simp
    tauto

/-- Witness: a concrete literal occurrence of each of the seven rules is
    found by the lexical extractor, including an occurrence preceded by an
    earlier occurrence of the same rule and occurrences with spaces before
    the final character. -/
theorem c8_lexical_covers_literal_call_forms_witness :
    "useState" ∈ regexExtract ("x = useState (0)".data)
  ∧ "createRoot" ∈ regexExtract ("root = createRoot(el)".data)
  ∧ "ReactDOM.render" ∈ regexExtract ("ReactDOM.render(a); ReactDOM.render(b)".data)
  ∧ "React.createElement" ∈ regexExtract ("el = React.createElement<Props>".data)
  ∧ "React.Fragment" ∈ regexExtract ("<React.Fragment>".data)
  ∧ "React.PureComponent"
      ∈ regexExtract ("let e = 1; class A extends React.PureComponent \x7b".data)
  ∧ "React.Children.map" ∈ regexExtract ("React.Children.map(fn)".data) := by
  refine ⟨?_, ?_, ?_, ?_, ?_, ?_, ?_⟩
  · exact c8_lexical_covers_literal_call_forms.1 ("x = useState (0)".data)
      ("x = ".data) [' '] ("0)".data) ("useState".data) (by decide) (by decide) rfl
      (by intro c hc; cases hc; decide)
  · exact c8_lexical_covers_literal_call_forms.2.1 ("root = createRoot(el)".data)
      ("root = ".data) [] ("el)".data) ("createRoot".data) (by decide) (by decide) rfl
      (by intro c hc; cases hc; decide)
  · exact c8_lexical_covers_literal_call_forms.2.2.1
      ("ReactDOM.render(a); ReactDOM.render(b)".data)
      ("ReactDOM.render(a); ".data) [] ("b)".data) ("render".data) (by decide) (by decide) rfl
  · exact c8_lexical_covers_literal_call_forms.2.2.2.1
      ("el = React.createElement<Props>".data)
      ("el = ".data) [] ("Props>".data) ("createElement".data) '<' (by decide) (by decide)
      (Or.inr rfl) rfl
  · exact c8_lexical_covers_literal_call_forms.2.2.2.2.1 ("<React.Fragment>".data)
      ("<".data) (">".data) ("Fragment".data) (by decide) rfl
  · exact c8_lexical_covers_literal_call_forms.2.2.2.2.2.1
      ("let e = 1; class A extends React.PureComponent \x7b".data)
      ("let e = 1; class A ".data) (" \x7b".data) ' ' [] "PureComponent"
      (Or.inr rfl) (by decide) (by decide) rfl
  · exact c8_lexical_covers_literal_call_forms.2.2.2.2.2.2
      ("React.Children.map(fn)".data) [] ("ap(fn)".data) 'm' (by decide) rfl
